import Mathlib

/-!
Verification of the invoice reconciliation app (`src/app.py`).

The app loads two tabular files with pandas, lets the operator pick a key
column and a value column in each, outer-joins the two projections on the
key, computes a per-row difference of the two values and classifies each
joined row as Match or Mismatch against a fixed 1e-8 tolerance.

Shallow embedding conventions:
* a pandas cell is `Cell`: a string, a (rational) number, or the missing
  marker NaN;
* a DataFrame is `Table`: a list of column names plus a list of rows,
  each row a list of cells aligned with the column names;
* numbers are embedded as `ℚ` (the claims under study only exercise
  comparisons and exact subtractions, where rational arithmetic agrees
  with the float computation);
* code that can raise returns `Except`/`Option`.
-/

/-- Cell value of a loaded table: text, numeric, or missing (NaN). -/
inductive Cell where
  | text (s : String)
  | num (q : ℚ)
  | missing
deriving DecidableEq, Repr

/-- Normalized table: column names plus rows of cells aligned with them
(models a pandas DataFrame). -/
structure Table where
  cols : List String
  rows : List (List Cell)
deriving DecidableEq, Repr

/-- Is the cell the missing marker?  Models `pd.isna` on a scalar. -/
def Cell.isMissing : Cell → Bool
  | .missing => true
  | _ => false

/-- Is the cell a text value?  Models `isinstance(val, str)`. -/
def Cell.isText : Cell → Bool
  | .text _ => true
  | _ => false

/-- Cell of `row` in the column named `c`, given the table's column list
(models positional lookup of a named column in a DataFrame row). -/
def cellAt (cols : List String) (row : List Cell) (c : String) : Cell :=
  row.getD (cols.findIdx (fun n => n = c)) Cell.missing

/-- Projection `df[[k, v]]` of a table to its (key, value) column pair,
one pair per row, as performed by lines 51-52 of `src/app.py` after the
rename to `InvoiceID`/`Value1` (resp. `Value2`). -/
def projectPairs (t : Table) (k v : String) : List (Cell × Cell) :=
  t.rows.map (fun r => (cellAt t.cols r k, cellAt t.cols r v))

/-- Exact rational subtraction, written through `mkRat` so that concrete
runs reduce inside `decide` (`qsub_eq` below proves it is subtraction). -/
def qsub (a b : ℚ) : ℚ :=
  mkRat (a.num * b.den - b.num * a.den) (a.den * b.den)

/-- Scalar subtraction of two cells as Python evaluates it inside the
vectorized `merged['Value1'] - merged['Value2']` (line 55):
`none` models the `TypeError` raised when a text value meets the
subtraction; `some none` models a NaN result (a missing operand);
`some (some q)` is a numeric result. -/
def cellSub : Cell → Cell → Option (Option ℚ)
  | .num a, .num b => some (some (qsub a b))
  | .num _, .missing => some none
  | .missing, .num _ => some none
  | .missing, .missing => some none
  | _, _ => none

/-- Fixed tolerance `1e-8` of line 57. -/
def eps : ℚ := mkRat 1 100000000

/-- Status of a joined row from its Difference cell, as computed by the
lambda on line 57: Match when the difference is NaN or its absolute
value is below `eps`, Mismatch otherwise. -/
def statusOf : Option ℚ → String
  | none => "Match"
  | some q => if |q| < eps then "Match" else "Mismatch"

/-- One row of the reconciliation output (columns of the merged frame in
their fixed order: InvoiceID, Value1, Value2, Difference, Status). -/
structure Rec where
  invoiceID : Cell
  value1 : Cell
  value2 : Cell
  difference : Option ℚ
  status : String
deriving DecidableEq, Repr

/-- A merged row before Difference/Status are attached:
(InvoiceID, Value1, Value2). -/
abbrev MRow := Cell × Cell × Cell

/-- Rows of the outer join contributed by one left row `p`: `p` matched
against every right row with an equal key, or paired with a missing
Value2 when no right key matches. -/
def joinLeft (l2 : List (Cell × Cell)) (p : Cell × Cell) : List MRow :=
  if (l2.filter (fun q => q.1 = p.1)).isEmpty then [(p.1, p.2, Cell.missing)]
  else (l2.filter (fun q => q.1 = p.1)).map fun q => (p.1, p.2, q.2)

/-- Right-only rows of the outer join: rows of the second projection
whose key matches no row of the first, paired with a missing Value1. -/
def rightOnly (l1 l2 : List (Cell × Cell)) : List MRow :=
  (l2.filter fun q => !(l1.any fun p => p.1 = q.1)).map
    fun q => (q.1, Cell.missing, q.2)

/-- Full outer join of the two projected (key, value) lists on the key,
mirroring `pd.merge(df1, df2, on='InvoiceID', how='outer')` (line 54)
with its default `sort=False` row order: left rows in order, then the
right-only rows in order. -/
def outerMerge (l1 l2 : List (Cell × Cell)) : List MRow :=
  l1.flatMap (joinLeft l2) ++ rightOnly l1 l2

/-- Attach Difference and Status to a merged row (lines 55-59).  The
`getD none` is only reached under the guard that every subtraction
succeeded. -/
def mkRec (m : MRow) : Rec :=
  let d := (cellSub m.2.1 m.2.2).getD none
  ⟨m.1, m.2.1, m.2.2, d, statusOf d⟩

/-- Errors a reconciliation run can surface: a missing selected column
(the `KeyError` of `df[[key, val]]`), or any other exception escaping
`reconcile` (caught by the handler at lines 104-110 of `src/app.py`). -/
inductive RErr where
  | columnNotFound
  | internal
deriving DecidableEq, Repr

/-- The reconciliation engine, `reconcile` of `src/app.py` lines 50-60:
project both tables to (InvoiceID, Value) pairs — raising ColumnNotFound
when a selected column does not exist — outer-join them on InvoiceID,
compute the vectorized difference (raising if any row subtracts a text
cell) and classify each row.  All-or-nothing: either the full record
list is returned or an error. -/
def reconcile (t1 : Table) (k1 v1 : String) (t2 : Table) (k2 v2 : String) :
    Except RErr (List Rec) :=
  if k1 ∈ t1.cols ∧ v1 ∈ t1.cols then
    if k2 ∈ t2.cols ∧ v2 ∈ t2.cols then
      let merged := outerMerge (projectPairs t1 k1 v1) (projectPairs t2 k2 v2)
      if merged.all (fun m => (cellSub m.2.1 m.2.2).isSome) then
        .ok (merged.map mkRec)
      else .error .internal
    else .error .columnNotFound
  else .error .columnNotFound

/-- Count of rows whose Status is Match (line 117). -/
def match_count (recs : List Rec) : ℕ :=
  recs.countP (fun r => r.status = "Match")

/-- Count of rows whose Status is Mismatch (line 118). -/
def mismatch_count (recs : List Rec) : ℕ :=
  recs.countP (fun r => r.status = "Mismatch")

/-- Total number of reconciliation rows, `len(result)` (line 123). -/
def total_count (recs : List Rec) : ℕ := recs.length

/-- Key column of a table projected through the chosen key name — the
`InvoiceID` side of the projection. -/
def projKeys (t : Table) (k : String) : List Cell :=
  t.rows.map (fun r => cellAt t.cols r k)

/-- Does a raw row qualify as a header row (line 28): at least two
non-missing cells, and every cell either text or missing? -/
def isHeaderRow (row : List Cell) : Bool :=
  decide (2 ≤ row.countP (fun c => !(Cell.isMissing c))) &&
    row.all (fun c => Cell.isText c || Cell.isMissing c)

/-- Scan of the loop on lines 27-30: index of the first qualifying row,
0 if none qualifies. -/
def findHeaderIdx : ℕ → List (List Cell) → ℕ
  | _, [] => 0
  | i, r :: rs => if isHeaderRow r then i else findHeaderIdx (i + 1) rs

/-- Header locator `detect_header_row` (lines 24-32): the raw sheet is
the result of the guarded `pd.read_excel(..., header=None, nrows=20)`;
a read failure (the `except` branch) yields 0, otherwise the first 20
raw rows are scanned and the first qualifying index is returned, 0 when
none qualifies. -/
def detect_header_row : Except Unit (List (List Cell)) → ℕ
  | .error _ => 0
  | .ok rows => findHeaderIdx 0 (rows.take 20)

/-- Decimal digit characters of `n`, least significant first, driven by
a structural fuel so that concrete values evaluate inside the kernel
(`digitsRevChars_eq` below relates it to `Nat.digits`). -/
def digitsRevChars : ℕ → ℕ → List Char
  | 0, _ => []
  | fuel + 1, n =>
    if n = 0 then [] else Nat.digitChar (n % 10) :: digitsRevChars fuel (n / 10)

/-- Decimal digit characters of `n`, most significant first; empty for 0. -/
def natChars (n : ℕ) : List Char :=
  (digitsRevChars n n).reverse

/-- Decimal digit characters of `n`, most significant first; "0" for 0. -/
def natCharsD (n : ℕ) : List Char :=
  if n = 0 then ['0'] else natChars n

/-- Numeric value of a list of decimal digit characters (0 when empty). -/
def charsToNat (cs : List Char) : ℕ :=
  cs.foldl (fun a c => 10 * a + (c.toNat - 48)) 0

/-- Rational `q` scaled by `10 ^ k`, written through `mkRat` so that
concrete runs reduce inside `decide` (`shift10_eq` below proves it is
multiplication by `10 ^ k`). -/
def shift10 (q : ℚ) (k : ℕ) : ℚ := mkRat (q.num * 10 ^ k) q.den

/-- Bounded search for an exponent `k` (starting at `k0`, trying at most
`fuel` more) with `d ∣ 10 ^ k`; falls back to the last index tried. -/
def findExp : ℕ → ℕ → ℕ → ℕ
  | 0, _, k0 => k0
  | fuel + 1, d, k0 => if d ∣ 10 ^ k0 then k0 else findExp fuel d (k0 + 1)

/-- Number of decimal places needed to write `q` exactly: the least `k`
with `q.den ∣ 10 ^ k` (searching up to `q.den`, which suffices for
every denominator that divides a power of ten). -/
def decExp (q : ℚ) : ℕ := findExp q.den q.den 0

/-- Digit string of the natural number `a` with a decimal point `k`
places from the right (plain integer when `k = 0`). -/
def decChars (a k : ℕ) : List Char :=
  if k = 0 then natCharsD a
  else
    natCharsD (a / 10 ^ k) ++
      '.' :: (List.replicate (k - (natChars (a % 10 ^ k)).length) '0' ++
        natChars (a % 10 ^ k))

/-- Exact decimal rendering of a rational cell value.  The value written
by `to_csv` is `str` of the underlying float; for every value with a
finite decimal expansion this rendering denotes the same number (the
model prints the expansion in full rather than Python's shortest float
repr with its occasional exponent notation). -/
def showRat (q : ℚ) : List Char :=
  let a := (shift10 q (decExp q)).num.natAbs
  if q < 0 then '-' :: decChars a (decExp q) else decChars a (decExp q)

/-- Field characters that force `to_csv` (csv QUOTE_MINIMAL) to quote a
field: the delimiter, the quote character and line-break characters. -/
def needsQuoteChar (c : Char) : Bool :=
  c = ',' || c = '"' || c = '\n' || c = '\r'

/-- Double every quote character, the csv escape used inside a quoted
field. -/
def escapeQuotes : List Char → List Char
  | [] => []
  | c :: r => if c = '"' then '"' :: '"' :: escapeQuotes r else c :: escapeQuotes r

/-- Serialization of one cell as a csv field, as `to_csv` writes it:
NaN becomes the empty field, numbers their decimal rendering, text is
written verbatim (quoted when it contains a special character). -/
def showField : Cell → List Char
  | .missing => []
  | .num q => showRat q
  | .text s =>
    if s.data.any needsQuoteChar then '"' :: (escapeQuotes s.data ++ ['"'])
    else s.data

/-- Difference column cell of a record as it appears in the merged
DataFrame: NaN or the numeric difference. -/
def diffCell : Option ℚ → Cell
  | none => .missing
  | some q => .num q

/-- Header line written by `result.to_csv(index=False)` (line 134): the
five merged-frame columns in their fixed order, no index column. -/
def csvHeader : List Char :=
  "InvoiceID,Value1,Value2,Difference,Status".data

/-- Characters of one csv data row of a reconciliation record: the five
fields in fixed order, comma separated. -/
def rowChars (r : Rec) : List Char :=
  showField r.invoiceID ++ ',' ::
    (showField r.value1 ++ ',' ::
      (showField r.value2 ++ ',' ::
        (showField (diffCell r.difference) ++ ',' ::
          showField (.text r.status))))

/-- Characters of the whole export `result.to_csv(index=False)`: header
line then one newline-terminated line per record. -/
def toCsvChars (recs : List Rec) : List Char :=
  csvHeader ++ '\n' :: recs.flatMap (fun r => rowChars r ++ ['\n'])

/-- The download payload of line 134, as a string. -/
def toCsv (recs : List Rec) : String := ⟨toCsvChars recs⟩

/-- Split a character list at every occurrence of `c` (the separators
are consumed; n separators yield n+1 parts). -/
def splitOnChar (c : Char) : List Char → List (List Char)
  | [] => [[]]
  | x :: xs =>
    let r := splitOnChar c xs
    if x = c then [] :: r else (x :: r.headD []) :: r.tail

/-- Modelled from the spec: the default NA markers a delimited-text
reader with numeric coercion turns into missing values (the re-parsing
side of the round-trip property is not code of this repository; the
marker list is pandas' documented default `na_values`). -/
def naMarkers : List String :=
  ["", "#N/A", "#N/A N/A", "#NA", "-1.#IND", "-1.#QNAN", "-NaN", "-nan",
   "1.#IND", "1.#QNAN", "<NA>", "N/A", "NA", "NULL", "NaN", "None",
   "n/a", "nan", "null"]

/-- Parse an unsigned decimal literal: digits, optionally followed by a
point and further digits; anything else fails. -/
def parseUnsigned (cs : List Char) : Option ℚ :=
  let ip := cs.takeWhile Char.isDigit
  let rest := cs.dropWhile Char.isDigit
  if rest.isEmpty then
    if ip.isEmpty then none else some (mkRat (charsToNat ip) 1)
  else if rest.head? = some '.' then
    let fp := rest.tail.takeWhile Char.isDigit
    if (rest.tail.dropWhile Char.isDigit).isEmpty && !(ip.isEmpty && fp.isEmpty)
    then some (mkRat (charsToNat ip * 10 ^ fp.length + charsToNat fp)
      (10 ^ fp.length))
    else none
  else none

/-- Modelled from the spec: numeric coercion of one field — an optional
sign followed by a decimal literal. -/
def parseNum (cs : List Char) : Option ℚ :=
  if cs.isEmpty then none
  else if cs.head? = some '-' then (parseUnsigned cs.tail).map (fun q => -q)
  else if cs.head? = some '+' then parseUnsigned cs.tail
  else parseUnsigned cs

/-- Modelled from the spec: re-parse one csv field with numeric
coercion — empty fields and NA markers become missing, numeric text
becomes a number, anything else stays text. -/
def parseField (cs : List Char) : Cell :=
  if cs.isEmpty then .missing
  else if naMarkers.contains (String.mk cs) then .missing
  else
    match parseNum cs with
    | some q => .num q
    | none => .text (String.mk cs)

/-- Modelled from the spec: re-parse a delimited-text export — split
into non-blank lines, read the first as the header names, and coerce
every field of each five-field data line.  Fails when a data line does
not have exactly the five expected fields. -/
def parseCsv (cs : List Char) : Option (List String × List (List Cell)) :=
  match (splitOnChar '\n' cs).filter (fun l => !l.isEmpty) with
  | [] => none
  | h :: rest =>
    (rest.mapM fun line =>
      match splitOnChar ',' line with
      | [a, b, c, d, e] =>
        some [parseField a, parseField b, parseField c, parseField d, parseField e]
      | _ => none).map
      (fun rows => ((splitOnChar ',' h).map (fun l => String.mk l), rows))

/-- Header cell of a loaded sheet turned into a column name, as pandas
names columns read from a header row (`Unnamed: j` for a missing cell
at position `j`). -/
def cellToHeader (j : ℕ) : Cell → String
  | .text s => s
  | .num q => ⟨showRat q⟩
  | .missing => "Unnamed: " ++ ⟨natCharsD j⟩

/-- Table built from a raw sheet by `pd.read_excel(..., skiprows=h)`
(line 42): row `h` becomes the header, the rows after it the data. -/
def loadSheet (rows : List (List Cell)) (h : ℕ) : Table :=
  ⟨(rows.getD h []).enum.map (fun jc => cellToHeader jc.1 jc.2),
   rows.drop (h + 1)⟩

/-- Content behind an uploaded file handle: a flat delimited table, or a
workbook of named sheets of raw rows. -/
inductive FileContent where
  | flat (t : Table)
  | workbook (sheets : List (String × List (List Cell)))

/-- An uploaded file: its name (whose extension selects the reader) and
its content. -/
structure UploadedFile where
  name : String
  content : FileContent

/-- Result of `read_file`: a sheet-name manifest, a loaded table, or the
`None` returned after the caught read failure (lines 45-47). -/
inductive ReadResult where
  | manifest (names : List String)
  | table (t : Table)
  | failed
deriving Repr

/-- Does string `s` end with `t`?  A list-level model of Python's
`str.endswith` (the built-in `String.endsWith` does not reduce inside
kernel evaluation). -/
def strEndsWith (s t : String) : Bool :=
  decide (s.data.reverse.take t.data.length = t.data.reverse)

/-- File reader `read_file` (lines 35-47): for an `.xlsx` name, with no
sheet selected, return the sheet-name manifest unconditionally;
with a selected sheet, locate its header row and load it; otherwise
parse the file as csv.  Any failure (wrong content for the extension,
unknown sheet) is caught and yields `failed`. -/
def read_file (f : UploadedFile) (selected_sheet : Option String) : ReadResult :=
  if strEndsWith f.name ".xlsx" then
    match f.content with
    | .workbook sheets =>
      match selected_sheet with
      | none => .manifest (sheets.map Prod.fst)
      | some s =>
        match sheets.find? (fun p => p.1 = s) with
        | none => .failed
        | some p => .table (loadSheet p.2 (detect_header_row (.ok p.2)))
    | .flat _ => .failed
  else
    match f.content with
    | .flat t => .table t
    | .workbook _ => .failed

/-- Does the rational have a finite decimal expansion (so that the
model's exact decimal rendering is defined for it)?  Every IEEE double
— hence every value a pandas numeric cell can hold — satisfies this. -/
def decOkB (q : ℚ) : Bool := decide ((shift10 q (decExp q)).den = 1)

/-- Is a text field inert under re-parsing: non-empty, not an NA marker,
not numeric, and free of csv special characters? -/
def safeTextB (s : String) : Bool :=
  !s.data.isEmpty && !(naMarkers.contains s) && (parseNum s.data).isNone &&
    !(s.data.any needsQuoteChar)

/-- Can an InvoiceID cell survive the csv round trip unchanged? -/
def idSafeB : Cell → Bool
  | .missing => true
  | .num q => decOkB q
  | .text s => safeTextB s

/-- Can a value cell survive the csv round trip unchanged (text never
occurs in a successful reconciliation's value columns)? -/
def valSafeB : Cell → Bool
  | .missing => true
  | .num q => decOkB q
  | .text _ => false

/-- Decidable equality of reconciliation results, for concrete checks. -/
instance : DecidableEq (Except RErr (List Rec)) := fun a b =>
  match a, b with
  | .ok x, .ok y => decidable_of_iff (x = y) (by simp)
  | .error x, .error y => decidable_of_iff (x = y) (by simp)
  | .ok _, .error _ => isFalse (by simp)
  | .error _, .ok _ => isFalse (by simp)

/-- The `mkRat` form of `qsub` is exactly rational subtraction. -/
theorem qsub_eq (a b : ℚ) : qsub a b = a - b := by
  rw [qsub, Rat.mkRat_eq_div]
  push_cast
  conv_rhs => rw [← Rat.num_div_den a, ← Rat.num_div_den b]
  have ha : ((a.den : ℚ)) ≠ 0 := by exact_mod_cast a.den_pos.ne'
  have hb : ((b.den : ℚ)) ≠ 0 := by exact_mod_cast b.den_pos.ne'
  field_simp
  ring

/-- The `mkRat` form of `shift10` is exactly multiplication by `10 ^ k`. -/
theorem shift10_eq (q : ℚ) (k : ℕ) : shift10 q k = q * 10 ^ k := by
  rw [shift10, Rat.mkRat_eq_div]
  push_cast
  conv_rhs => rw [← Rat.num_div_den q]
  field_simp

/-- The tolerance is the literal 1e-8. -/
theorem eps_eq : eps = 1 / 100000000 := by
  rw [eps, Rat.mkRat_eq_div]
  norm_num

/-- Merged rows and success guard recovered from a successful run. -/
theorem reconcile_ok_elim {t1 : Table} {k1 v1 : String} {t2 : Table}
    {k2 v2 : String} {recs : List Rec}
    (h : reconcile t1 k1 v1 t2 k2 v2 = .ok recs) :
    recs = (outerMerge (projectPairs t1 k1 v1) (projectPairs t2 k2 v2)).map mkRec ∧
    (outerMerge (projectPairs t1 k1 v1) (projectPairs t2 k2 v2)).all
      (fun m => (cellSub m.2.1 m.2.2).isSome) = true ∧
    (k1 ∈ t1.cols ∧ v1 ∈ t1.cols) ∧ (k2 ∈ t2.cols ∧ v2 ∈ t2.cols) := by
  unfold reconcile at h
  split at h
  · split at h
    · simp only [] at h
      split at h
      · exact ⟨(Except.ok.injEq _ _).mp h |>.symm, by assumption, by assumption, by assumption⟩
      · exact absurd h (by simp)
    · exact absurd h (by simp)
  · exact absurd h (by simp)

/-- Every record of a successful run is `mkRec` of a merged row whose
subtraction succeeded. -/
theorem mem_reconcile_ok {t1 : Table} {k1 v1 : String} {t2 : Table}
    {k2 v2 : String} {recs : List Rec} {r : Rec}
    (h : reconcile t1 k1 v1 t2 k2 v2 = .ok recs) (hr : r ∈ recs) :
    ∃ m, r = mkRec m ∧ (cellSub m.2.1 m.2.2).isSome = true := by
  obtain ⟨hrecs, hall, -, -⟩ := reconcile_ok_elim h
  subst hrecs
  obtain ⟨m, hm, rfl⟩ := List.mem_map.mp hr
  exact ⟨m, rfl, by simpa using List.all_eq_true.mp hall m hm⟩


/-- C1: in every successful reconciliation, a row's Status is "Match"
exactly when its Difference is missing or has absolute value below
`eps = 1e-8`, it is "Mismatch" otherwise, and no third status occurs. -/
theorem C1_status_dichotomy {t1 : Table} {k1 v1 : String} {t2 : Table}
    {k2 v2 : String} {recs : List Rec}
    (h : reconcile t1 k1 v1 t2 k2 v2 = .ok recs) :
    ∀ r ∈ recs,
      (r.status = "Match" ↔
        r.difference = none ∨ ∃ q, r.difference = some q ∧ |q| < eps) ∧
      (r.status = "Match" ∨ r.status = "Mismatch") := by
  intro r hr
  obtain ⟨m, rfl, -⟩ := mem_reconcile_ok h hr
  simp only [mkRec]
  rcases (cellSub m.2.1 m.2.2).getD none with - | q
  · simp [statusOf]
  · by_cases hq : |q| < eps
    · simp [statusOf, hq]
    · simp [statusOf, hq]

/-- Witness for C1 at the spec's §8 scenario tables. -/
theorem C1_status_dichotomy_witness :
    ((⟨.num 2, .num 20, .num 25, some (-5), "Mismatch"⟩ : Rec).status = "Match" ↔
      (⟨.num 2, .num 20, .num 25, some (-5), "Mismatch"⟩ : Rec).difference = none ∨
        ∃ q, (⟨.num 2, .num 20, .num 25, some (-5), "Mismatch"⟩ : Rec).difference = some q ∧
          |q| < eps) ∧
    ((⟨.num 2, .num 20, .num 25, some (-5), "Mismatch"⟩ : Rec).status = "Match" ∨
      (⟨.num 2, .num 20, .num 25, some (-5), "Mismatch"⟩ : Rec).status = "Mismatch") :=
  @C1_status_dichotomy
    ⟨["ID", "Amt"], [[.num 1, .num 10], [.num 2, .num 20]]⟩ "ID" "Amt"
    ⟨["ID", "Amt"], [[.num 1, .num 10], [.num 2, .num 25]]⟩ "ID" "Amt"
    [⟨.num 1, .num 10, .num 10, some 0, "Match"⟩,
     ⟨.num 2, .num 20, .num 25, some (-5), "Mismatch"⟩]
    (by decide)
    ⟨.num 2, .num 20, .num 25, some (-5), "Mismatch"⟩
    (by decide)

/-- C5 counterexample: a concrete run whose only row has Difference
exactly `1e-8`; the code classifies it "Mismatch", not "Match" as the
claim states (line 57 uses a strict `<`). -/
theorem C5_counterexample :
    reconcile ⟨["ID", "Amt"], [[.num 1, .num (mkRat 1 100000000)]]⟩ "ID" "Amt"
      ⟨["ID", "Amt"], [[.num 1, .num 0]]⟩ "ID" "Amt" =
      .ok [⟨.num 1, .num (mkRat 1 100000000), .num 0,
        some (mkRat 1 100000000), "Mismatch"⟩] ∧
    |mkRat 1 100000000| = eps ∧ ("Mismatch" : String) ≠ "Match" := by
  refine ⟨by decide, by decide, by decide⟩

/-- C5 amended: a joined row whose Difference is present with absolute
value exactly `eps = 1e-8` is classified "Mismatch" (the strict `<`
threshold excludes the boundary from the Match side). -/
theorem C5_boundary_is_mismatch {t1 : Table} {k1 v1 : String} {t2 : Table}
    {k2 v2 : String} {recs : List Rec}
    (h : reconcile t1 k1 v1 t2 k2 v2 = .ok recs) :
    ∀ r ∈ recs, ∀ q, r.difference = some q → |q| = eps →
      r.status = "Mismatch" := by
  intro r hr q hq habs
  obtain ⟨m, rfl, -⟩ := mem_reconcile_ok h hr
  simp only [mkRec] at hq ⊢
  rw [hq]
  simp [statusOf, habs]

/-- Witness for the amended C5 at the boundary input. -/
theorem C5_boundary_is_mismatch_witness :
    (⟨.num 1, .num (mkRat 1 100000000), .num 0,
      some (mkRat 1 100000000), "Mismatch"⟩ : Rec).status = "Mismatch" :=
  @C5_boundary_is_mismatch
    ⟨["ID", "Amt"], [[.num 1, .num (mkRat 1 100000000)]]⟩ "ID" "Amt"
    ⟨["ID", "Amt"], [[.num 1, .num 0]]⟩ "ID" "Amt"
    [⟨.num 1, .num (mkRat 1 100000000), .num 0,
      some (mkRat 1 100000000), "Mismatch"⟩]
    (by decide)
    ⟨.num 1, .num (mkRat 1 100000000), .num 0,
      some (mkRat 1 100000000), "Mismatch"⟩
    (by decide) (mkRat 1 100000000) (by decide) (by decide)

/-- C6: when a chosen key or value column is not an existing column of
its table, the run yields the ColumnNotFound reconciliation error and no
record sequence. -/
theorem C6_missing_column_error {t1 : Table} {k1 v1 : String} {t2 : Table}
    {k2 v2 : String}
    (h : ¬(k1 ∈ t1.cols ∧ v1 ∈ t1.cols) ∨ ¬(k2 ∈ t2.cols ∧ v2 ∈ t2.cols)) :
    reconcile t1 k1 v1 t2 k2 v2 = .error .columnNotFound ∧
    ∀ recs, reconcile t1 k1 v1 t2 k2 v2 ≠ .ok recs := by
  have hres : reconcile t1 k1 v1 t2 k2 v2 = .error .columnNotFound := by
    unfold reconcile
    rcases h with h | h
    · rw [if_neg h]
    · by_cases h1 : k1 ∈ t1.cols ∧ v1 ∈ t1.cols
      · rw [if_pos h1, if_neg h]
      · rw [if_neg h1]
  exact ⟨hres, fun recs hok => by rw [hres] at hok; exact Except.noConfusion hok⟩

/-- Witness for C6: selecting the absent column "Total" fails. -/
theorem C6_missing_column_error_witness :
    reconcile ⟨["ID", "Amt"], [[.num 1, .num 10]]⟩ "ID" "Total"
      ⟨["ID", "Amt"], [[.num 1, .num 10]]⟩ "ID" "Amt" =
      .error .columnNotFound ∧
    ∀ recs, reconcile ⟨["ID", "Amt"], [[.num 1, .num 10]]⟩ "ID" "Total"
      ⟨["ID", "Amt"], [[.num 1, .num 10]]⟩ "ID" "Amt" ≠ .ok recs :=
  @C6_missing_column_error
    ⟨["ID", "Amt"], [[.num 1, .num 10]]⟩ "ID" "Total"
    ⟨["ID", "Amt"], [[.num 1, .num 10]]⟩ "ID" "Amt"
    (by decide)

/-- Every left projected row contributes its value as a Value1 cell of
some merged row. -/
theorem outerMerge_of_mem_left {l1 l2 : List (Cell × Cell)} {p : Cell × Cell}
    (hp : p ∈ l1) : ∃ m ∈ outerMerge l1 l2, m.2.1 = p.2 := by
  by_cases he : (l2.filter (fun q => q.1 = p.1)).isEmpty = true
  · refine ⟨(p.1, p.2, .missing), List.mem_append_left _ ?_, rfl⟩
    exact List.mem_flatMap.mpr ⟨p, hp, by
      rw [joinLeft, if_pos he]
      exact List.mem_singleton.mpr rfl⟩
  · obtain ⟨q, hq⟩ := List.exists_mem_of_ne_nil
      (l2.filter (fun q => q.1 = p.1))
      (fun hnil => he (by rw [hnil]; rfl))
    refine ⟨(p.1, p.2, q.2), List.mem_append_left _ ?_, rfl⟩
    exact List.mem_flatMap.mpr ⟨p, hp, by
      rw [joinLeft, if_neg he]
      exact List.mem_map.mpr ⟨q, hq, rfl⟩⟩

/-- Every right projected row contributes its value as a Value2 cell of
some merged row. -/
theorem outerMerge_of_mem_right {l1 l2 : List (Cell × Cell)} {q : Cell × Cell}
    (hq : q ∈ l2) : ∃ m ∈ outerMerge l1 l2, m.2.2 = q.2 := by
  by_cases hmatch : l1.any (fun p => p.1 = q.1) = true
  · obtain ⟨p, hp, hpq⟩ := List.any_eq_true.mp hmatch
    refine ⟨(p.1, p.2, q.2), List.mem_append_left _ ?_, rfl⟩
    have hqm : q ∈ l2.filter (fun x => x.1 = p.1) :=
      List.mem_filter.mpr ⟨hq, by simpa using (of_decide_eq_true hpq).symm⟩
    have hne : ¬((l2.filter (fun x => x.1 = p.1)).isEmpty = true) :=
      fun hemp => absurd hqm (by rw [List.isEmpty_iff.mp hemp]; exact List.not_mem_nil q)
    exact List.mem_flatMap.mpr ⟨p, hp, by
      rw [joinLeft, if_neg hne]
      exact List.mem_map.mpr ⟨q, hqm, rfl⟩⟩
  · have hfalse : l1.any (fun p => p.1 = q.1) = false := by
      cases hval : l1.any (fun p => p.1 = q.1)
      · rfl
      · exact absurd hval hmatch
    refine ⟨(q.1, .missing, q.2), List.mem_append_right _ ?_, rfl⟩
    exact List.mem_map.mpr ⟨q, List.mem_filter.mpr ⟨hq, by simp [hfalse]⟩, rfl⟩

/-- Subtraction with a text cell on the left raises. -/
theorem cellSub_text_left {c d : Cell} (h : c.isText = true) :
    cellSub c d = none := by
  cases c <;> cases d <;> simp_all [cellSub, Cell.isText]

/-- Subtraction with a text cell on the right raises. -/
theorem cellSub_text_right {c d : Cell} (h : d.isText = true) :
    cellSub c d = none := by
  cases c <;> cases d <;> simp_all [cellSub, Cell.isText]

/-- C3 counterexample: one text cell "N/A" in the first table's value
column makes the whole run fail with an internal reconciliation error —
no record sequence (with a missing Difference for that row) is
returned, contrary to the claim. -/
theorem C3_counterexample :
    reconcile ⟨["ID", "Amt"], [[.num 1, .text "N/A"]]⟩ "ID" "Amt"
      ⟨["ID", "Amt"], [[.num 1, .num 5]]⟩ "ID" "Amt" = .error .internal := by
  decide

/-- C3 amended: a non-numeric text cell in a chosen value column makes
`reconcile` fail with the internal reconciliation error (the vectorized
subtraction raises `TypeError`); the batch is aborted all-or-nothing
rather than returning rows with missing Difference. -/
theorem C3_text_value_aborts {t1 : Table} {k1 v1 : String} {t2 : Table}
    {k2 v2 : String}
    (h1 : k1 ∈ t1.cols ∧ v1 ∈ t1.cols) (h2 : k2 ∈ t2.cols ∧ v2 ∈ t2.cols)
    (hbad : (∃ r ∈ t1.rows, (cellAt t1.cols r v1).isText = true) ∨
            (∃ r ∈ t2.rows, (cellAt t2.cols r v2).isText = true)) :
    reconcile t1 k1 v1 t2 k2 v2 = .error .internal := by
  unfold reconcile
  rw [if_pos h1, if_pos h2]
  have hm : ∃ m ∈ outerMerge (projectPairs t1 k1 v1) (projectPairs t2 k2 v2),
      cellSub m.2.1 m.2.2 = none := by
    rcases hbad with ⟨r, hr, ht⟩ | ⟨r, hr, ht⟩
    · obtain ⟨m, hm, hv⟩ := @outerMerge_of_mem_left
        (projectPairs t1 k1 v1) (projectPairs t2 k2 v2) _
        (List.mem_map.mpr ⟨r, hr, rfl⟩)
      exact ⟨m, hm, cellSub_text_left (by rw [hv]; exact ht)⟩
    · obtain ⟨m, hm, hv⟩ := @outerMerge_of_mem_right
        (projectPairs t1 k1 v1) (projectPairs t2 k2 v2) _
        (List.mem_map.mpr ⟨r, hr, rfl⟩)
      exact ⟨m, hm, cellSub_text_right (by rw [hv]; exact ht)⟩
  obtain ⟨m, hm, hnone⟩ := hm
  rw [if_neg]
  intro hall
  have := List.all_eq_true.mp hall m hm
  rw [hnone] at this
  exact Bool.noConfusion this

/-- Witness for the amended C3 at the "N/A" scenario input. -/
theorem C3_text_value_aborts_witness :
    reconcile ⟨["ID", "Amt"], [[.num 1, .text "N/A"], [.num 2, .num 7]]⟩ "ID" "Amt"
      ⟨["ID", "Amt"], [[.num 2, .num 7]]⟩ "ID" "Amt" = .error .internal :=
  @C3_text_value_aborts
    ⟨["ID", "Amt"], [[.num 1, .text "N/A"], [.num 2, .num 7]]⟩ "ID" "Amt"
    ⟨["ID", "Amt"], [[.num 2, .num 7]]⟩ "ID" "Amt"
    (by decide) (by decide)
    (Or.inl ⟨[.num 1, .text "N/A"], by decide, by decide⟩)

/-- The scan returns 0 when no row qualifies. -/
theorem findHeaderIdx_of_none {l : List (List Cell)}
    (h : ∀ r ∈ l, isHeaderRow r = false) : ∀ n, findHeaderIdx n l = 0 := by
  induction l with
  | nil => intro n; rfl
  | cons r rs ih =>
    intro n
    rw [findHeaderIdx, if_neg (by simp [h r (List.mem_cons_self r rs)])]
    exact ih (fun x hx => h x (List.mem_cons_of_mem r hx)) (n + 1)

/-- The scan returns the offset index of the first qualifying row. -/
theorem findHeaderIdx_of_first {l : List (List Cell)} :
    ∀ (i n : ℕ), i < l.length →
    (∀ j, j < i → isHeaderRow (l.getD j []) = false) →
    isHeaderRow (l.getD i []) = true →
    findHeaderIdx n l = n + i := by
  induction l with
  | nil => intro i n hi; exact absurd hi (by simp)
  | cons r rs ih =>
    intro i n hi hbefore hhit
    cases i with
    | zero =>
      rw [findHeaderIdx, if_pos (by simpa using hhit)]
      omega
    | succ i =>
      have h0 : isHeaderRow r = false := by simpa using hbefore 0 (Nat.succ_pos i)
      rw [findHeaderIdx, if_neg (by simp [h0])]
      have := ih i (n + 1) (by simpa using Nat.lt_of_succ_lt_succ hi)
        (fun j hj => by simpa using hbefore (j + 1) (Nat.succ_lt_succ hj))
        (by simpa using hhit)
      omega

/-- Indexing inside a take agrees with indexing the original list. -/
theorem getD_take_eq {α : Type} {l : List α} {n j : ℕ} (h : j < n) (d : α) :
    (l.take n).getD j d = l.getD j d := by
  simp [List.getD_eq_getElem?_getD, List.getElem?_take, h]

/-- C8: the header locator returns 0 on a failed read; returns 0 when no
row among the first 20 qualifies (at least 2 non-missing cells, all
cells text or missing); returns the index of the first qualifying row
inside that window; and on the spec's scenario sheet it returns 2. -/
theorem C8_header_locator :
    detect_header_row (.error ()) = 0 ∧
    (∀ rows, (∀ r ∈ rows.take 20, isHeaderRow r = false) →
      detect_header_row (.ok rows) = 0) ∧
    (∀ rows i, i < 20 → i < rows.length →
      (∀ j, j < i → isHeaderRow (rows.getD j []) = false) →
      isHeaderRow (rows.getD i []) = true →
      detect_header_row (.ok rows) = i) ∧
    detect_header_row (.ok [[.text "Report Title"], [],
      [.text "ID", .text "Amount"], [.text "1", .num 100]]) = 2 := by
  refine ⟨rfl, ?_, ?_, by decide⟩
  · intro rows h
    exact findHeaderIdx_of_none h 0
  · intro rows i h20 hlen hbefore hhit
    show findHeaderIdx 0 (rows.take 20) = i
    have := @findHeaderIdx_of_first (rows.take 20) i 0
      (by rw [List.length_take]; omega)
      (fun j hj => by rw [getD_take_eq (by omega) ([] : List Cell)]; exact hbefore j hj)
      (by rw [getD_take_eq h20 ([] : List Cell)]; exact hhit)
    omega

/-- Witness for C8 exercising the first-qualifying-row clause on the
scenario sheet. -/
theorem C8_header_locator_witness :
    detect_header_row (.ok [[.text "Report Title"], [],
      [.text "ID", .text "Amount"], [.text "1", .num 100], [], [], [],
      [], [], [], [], [], [], [], [], [], [], [], [], [], [],
      [.text "A", .text "B"]]) = 2 :=
  C8_header_locator.2.2.1
    [[.text "Report Title"], [], [.text "ID", .text "Amount"],
     [.text "1", .num 100], [], [], [], [], [], [], [], [], [], [], [],
     [], [], [], [], [], [], [.text "A", .text "B"]]
    2 (by decide) (by decide) (by decide) (by decide)

/-- C10: for a spreadsheet upload with no selected sheet, `read_file`
returns the sheet-name manifest even when the workbook has exactly one
sheet — it never loads a single-sheet workbook directly into a table. -/
theorem C10_single_sheet_manifest (nm : String)
    (sheets : List (String × List (List Cell)))
    (hx : strEndsWith nm ".xlsx" = true) (_hone : sheets.length = 1) :
    read_file ⟨nm, .workbook sheets⟩ none = .manifest (sheets.map Prod.fst) ∧
    ∀ t, read_file ⟨nm, .workbook sheets⟩ none ≠ .table t := by
  unfold read_file
  simp [hx]

/-- Witness for C10 on a one-sheet workbook. -/
theorem C10_single_sheet_manifest_witness :
    read_file ⟨"ledger.xlsx", .workbook [("Sheet1", [[.text "A"]])]⟩ none =
      .manifest ["Sheet1"] ∧
    ∀ t, read_file ⟨"ledger.xlsx", .workbook [("Sheet1", [[.text "A"]])]⟩ none ≠
      .table t := by
  have h := C10_single_sheet_manifest "ledger.xlsx" [("Sheet1", [[.text "A"]])]
    (by decide) (by decide)
  exact h

/-- Counting over a flatMap is the sum of the per-element counts. -/
theorem countP_flatMap {α β : Type} (l : List α) (f : α → List β) (p : β → Bool) :
    (l.flatMap f).countP p = (l.map (fun a => (f a).countP p)).sum := by
  induction l with
  | nil => rfl
  | cons a l ih => simp [List.flatMap_cons, List.countP_append, ih]

/-- A count of key-column hits, phrased through the pair list. -/
theorem countP_key_eq_count (l : List (Cell × Cell)) (c : Cell) :
    l.countP (fun q => q.1 = c) = (l.map Prod.fst).count c := by
  rw [List.count, List.countP_map]
  rfl

/-- With a duplicate-free right key column, one left row contributes
exactly one joined row. -/
theorem joinLeft_length {l2 : List (Cell × Cell)}
    (h2 : (l2.map Prod.fst).Nodup) (p : Cell × Cell) :
    (joinLeft l2 p).length = 1 := by
  rw [joinLeft]
  by_cases he : (l2.filter (fun q => q.1 = p.1)).isEmpty = true
  · rw [if_pos he]
    rfl
  · rw [if_neg he, List.length_map]
    have hle : (l2.filter (fun q => q.1 = p.1)).length ≤ 1 := by
      rw [← List.countP_eq_length_filter, countP_key_eq_count]
      exact List.nodup_iff_count_le_one.mp h2 p.1
    have hpos : 0 < (l2.filter (fun q => q.1 = p.1)).length :=
      List.length_pos.mpr (fun hnil => he (by rw [hnil]; rfl))
    omega

/-- Every row contributed by the left row `p` carries the key `p.1`. -/
theorem joinLeft_key {l2 : List (Cell × Cell)} {p : Cell × Cell} {m : MRow}
    (hm : m ∈ joinLeft l2 p) : m.1 = p.1 := by
  rw [joinLeft] at hm
  by_cases he : (l2.filter (fun q => q.1 = p.1)).isEmpty = true
  · rw [if_pos he] at hm
    rw [List.mem_singleton.mp hm]
  · rw [if_neg he] at hm
    obtain ⟨q, -, rfl⟩ := List.mem_map.mp hm
    rfl

/-- With a duplicate-free right key column, the per-key multiplicity of
one left row's contribution is 1 at its own key and 0 elsewhere. -/
theorem joinLeft_countKey {l2 : List (Cell × Cell)}
    (h2 : (l2.map Prod.fst).Nodup) (p : Cell × Cell) (k : Cell) :
    (joinLeft l2 p).countP (fun m => m.1 = k) = if p.1 = k then 1 else 0 := by
  by_cases hk : p.1 = k
  · rw [if_pos hk]
    have : (joinLeft l2 p).countP (fun m => m.1 = k) =
        (joinLeft l2 p).countP (fun m => true) := by
      apply List.countP_congr
      intro m hm
      simp [joinLeft_key hm, hk]
    rw [this, List.countP_true, joinLeft_length h2]
  · rw [if_neg hk, List.countP_eq_zero]
    intro m hm
    simp [joinLeft_key hm, hk]

/-- Per-key multiplicity of the whole left side of the join. -/
theorem flatMap_joinLeft_countKey {l1 l2 : List (Cell × Cell)}
    (h2 : (l2.map Prod.fst).Nodup) (k : Cell) :
    (l1.flatMap (joinLeft l2)).countP (fun m => m.1 = k) =
      (l1.map Prod.fst).count k := by
  rw [countP_flatMap, ← countP_key_eq_count]
  induction l1 with
  | nil => rfl
  | cons p l1 ih =>
    rw [List.map_cons, List.sum_cons, ih, List.countP_cons, joinLeft_countKey h2]
    by_cases hk : p.1 = k
    · simp [hk, Nat.add_comm]
    · simp [hk]

/-- Per-key multiplicity of the right-only side of the join. -/
theorem rightOnly_countKey {l1 l2 : List (Cell × Cell)} (k : Cell) :
    (rightOnly l1 l2).countP (fun m => m.1 = k) =
      if k ∈ l1.map Prod.fst then 0 else (l2.map Prod.fst).count k := by
  rw [rightOnly, List.countP_map, List.countP_filter, ← countP_key_eq_count]
  by_cases hk : k ∈ l1.map Prod.fst
  · rw [if_pos hk, List.countP_eq_zero]
    intro q hq hcontra
    obtain ⟨p0, hp0, hp0k⟩ := List.mem_map.mp hk
    have h1 : q.1 = k := of_decide_eq_true ((Bool.and_eq_true _ _).mp hcontra).1
    have h2 : (l1.any fun p => p.1 = q.1) = false := by
      have hb := ((Bool.and_eq_true _ _).mp hcontra).2
      simpa using hb
    have h3 : (l1.any fun p => p.1 = q.1) = true :=
      List.any_eq_true.mpr ⟨p0, hp0, decide_eq_true (by rw [hp0k, h1])⟩
    rw [h3] at h2
    exact Bool.noConfusion h2
  · rw [if_neg hk]
    apply List.countP_congr
    intro q hq
    constructor
    · intro hb
      exact ((Bool.and_eq_true _ _).mp hb).1
    · intro hb
      refine (Bool.and_eq_true _ _).mpr ⟨hb, ?_⟩
      have hq1 : q.1 = k := of_decide_eq_true hb
      cases hany : l1.any (fun p => p.1 = q.1)
      · rfl
      · obtain ⟨p0, hp0, hp0k⟩ := List.any_eq_true.mp hany
        exact absurd
          (List.mem_map.mpr ⟨p0, hp0, by rw [of_decide_eq_true hp0k, hq1]⟩) hk

/-- Per-key multiplicity of the full outer join under duplicate-free
key columns: one row per key present on either side, none otherwise. -/
theorem outerMerge_countKey {l1 l2 : List (Cell × Cell)}
    (h1 : (l1.map Prod.fst).Nodup) (h2 : (l2.map Prod.fst).Nodup) (k : Cell) :
    (outerMerge l1 l2).countP (fun m => m.1 = k) =
      if k ∈ l1.map Prod.fst ∨ k ∈ l2.map Prod.fst then 1 else 0 := by
  rw [outerMerge, List.countP_append, flatMap_joinLeft_countKey h2,
    rightOnly_countKey]
  by_cases hk1 : k ∈ l1.map Prod.fst
  · rw [if_pos hk1, List.count_eq_one_of_mem h1 hk1, if_pos (Or.inl hk1)]
  · rw [if_neg hk1, List.count_eq_zero_of_not_mem hk1]
    by_cases hk2 : k ∈ l2.map Prod.fst
    · rw [List.count_eq_one_of_mem h2 hk2, if_pos (Or.inr hk2)]
    · rw [List.count_eq_zero_of_not_mem hk2, if_neg (by tauto)]

/-- Keys of the projected pair list are the projected key column. -/
theorem keys_projectPairs (t : Table) (k v : String) :
    (projectPairs t k v).map Prod.fst = projKeys t k := by
  rw [projectPairs, projKeys, List.map_map]
  rfl

/-- A joined row whose key is absent from one side of the join carries
the missing marker in that side's value slot. -/
theorem outerMerge_missing_sides {l1 l2 : List (Cell × Cell)} {m : MRow}
    (hm : m ∈ outerMerge l1 l2) :
    (m.1 ∉ l1.map Prod.fst → m.2.1 = .missing) ∧
    (m.1 ∉ l2.map Prod.fst → m.2.2 = .missing) := by
  rcases List.mem_append.mp hm with hl | hr
  · obtain ⟨p, hp, hjl⟩ := List.mem_flatMap.mp hl
    have hk : m.1 = p.1 := joinLeft_key hjl
    have hmem1 : m.1 ∈ l1.map Prod.fst := hk ▸ List.mem_map.mpr ⟨p, hp, rfl⟩
    refine ⟨fun hn => absurd hmem1 hn, ?_⟩
    rw [joinLeft] at hjl
    by_cases he : (l2.filter (fun q => q.1 = p.1)).isEmpty = true
    · rw [if_pos he] at hjl
      rw [List.mem_singleton.mp hjl]
      intro hn
      rfl
    · rw [if_neg he] at hjl
      obtain ⟨q, hq, rfl⟩ := List.mem_map.mp hjl
      obtain ⟨hq2, hqk⟩ := List.mem_filter.mp hq
      intro hn
      exact absurd (List.mem_map.mpr ⟨q, hq2, of_decide_eq_true hqk⟩) hn
  · rw [rightOnly] at hr
    obtain ⟨q, hq, rfl⟩ := List.mem_map.mp hr
    have hq2 := (List.mem_filter.mp hq).1
    exact ⟨fun hn => rfl, fun hn => absurd (List.mem_map.mpr ⟨q, hq2, rfl⟩) hn⟩

/-- C2: with duplicate-free key columns, a successful reconciliation
holds exactly one record per key present in either projected key
column and none for any other key, and a record whose key is absent
from one table has that table's value slot missing. -/
theorem C2_full_outer_join {t1 : Table} {k1 v1 : String} {t2 : Table}
    {k2 v2 : String} {recs : List Rec}
    (h : reconcile t1 k1 v1 t2 k2 v2 = .ok recs)
    (h1 : (projKeys t1 k1).Nodup) (h2 : (projKeys t2 k2).Nodup) :
    (∀ k : Cell, recs.countP (fun r => r.invoiceID = k) =
      if k ∈ projKeys t1 k1 ∨ k ∈ projKeys t2 k2 then 1 else 0) ∧
    ∀ r ∈ recs, (r.invoiceID ∉ projKeys t1 k1 → r.value1 = .missing) ∧
      (r.invoiceID ∉ projKeys t2 k2 → r.value2 = .missing) := by
  obtain ⟨hrecs, -, -, -⟩ := reconcile_ok_elim h
  subst hrecs
  have hk1 := keys_projectPairs t1 k1 v1
  have hk2 := keys_projectPairs t2 k2 v2
  constructor
  · intro k
    rw [List.countP_map]
    have hcomp : ((fun r => decide (r.invoiceID = k)) ∘ mkRec) =
        (fun m : MRow => decide (m.1 = k)) := rfl
    rw [hcomp, outerMerge_countKey (hk1 ▸ h1) (hk2 ▸ h2), hk1, hk2]
  · intro r hr
    obtain ⟨m, hm, rfl⟩ := List.mem_map.mp hr
    have hms := outerMerge_missing_sides hm
    exact ⟨fun hn => hms.1 (hk1 ▸ hn), fun hn => hms.2 (hk2 ▸ hn)⟩

/-- Witness for C2 at a pair of single-row tables with distinct keys. -/
theorem C2_full_outer_join_witness :
    (∀ k : Cell,
      ([⟨.num 1, .num 10, .missing, none, "Match"⟩,
        ⟨.num 2, .missing, .num 5, none, "Match"⟩] : List Rec).countP
          (fun r => r.invoiceID = k) =
      if k ∈ projKeys ⟨["ID", "Amt"], [[.num 1, .num 10]]⟩ "ID" ∨
          k ∈ projKeys ⟨["ID", "Amt"], [[.num 2, .num 5]]⟩ "ID"
      then 1 else 0) ∧
    ∀ r ∈ ([⟨.num 1, .num 10, .missing, none, "Match"⟩,
        ⟨.num 2, .missing, .num 5, none, "Match"⟩] : List Rec),
      (r.invoiceID ∉ projKeys ⟨["ID", "Amt"], [[.num 1, .num 10]]⟩ "ID" →
        r.value1 = .missing) ∧
      (r.invoiceID ∉ projKeys ⟨["ID", "Amt"], [[.num 2, .num 5]]⟩ "ID" →
        r.value2 = .missing) :=
  @C2_full_outer_join
    ⟨["ID", "Amt"], [[.num 1, .num 10]]⟩ "ID" "Amt"
    ⟨["ID", "Amt"], [[.num 2, .num 5]]⟩ "ID" "Amt"
    [⟨.num 1, .num 10, .missing, none, "Match"⟩,
     ⟨.num 2, .missing, .num 5, none, "Match"⟩]
    (by decide) (by decide) (by decide)

/-- Every record of a successful run is labelled Match or Mismatch. -/
theorem status_mem_ok {t1 : Table} {k1 v1 : String} {t2 : Table}
    {k2 v2 : String} {recs : List Rec}
    (h : reconcile t1 k1 v1 t2 k2 v2 = .ok recs) :
    ∀ r ∈ recs, r.status = "Match" ∨ r.status = "Mismatch" := by
  intro r hr
  obtain ⟨m, rfl, -⟩ := mem_reconcile_ok h hr
  simp only [mkRec]
  rcases (cellSub m.2.1 m.2.2).getD none with - | q
  · exact Or.inl rfl
  · by_cases hq : |q| < eps
    · exact Or.inl (by simp [statusOf, hq])
    · exact Or.inr (by simp [statusOf, hq])

/-- Length of the outer join for a duplicate-free right key column: all
left rows, plus the unmatched right rows. -/
theorem outerMerge_length {l1 l2 : List (Cell × Cell)}
    (h2 : (l2.map Prod.fst).Nodup) :
    (outerMerge l1 l2).length =
      l1.length + l2.countP (fun q => !(l1.any fun p => p.1 = q.1)) := by
  rw [outerMerge, List.length_append, List.length_flatMap]
  congr 1
  · induction l1 with
    | nil => rfl
    | cons p l1 ih =>
      rw [List.map_cons, List.sum_cons, Function.comp_apply,
        joinLeft_length h2, ih, List.length_cons]
      omega
  · rw [rightOnly, List.length_map, ← List.countP_eq_length_filter]

/-- Any-over-map, for heterogeneous map functions. -/
theorem any_map_comp {α β : Type} (l : List α) (f : α → β) (p : β → Bool) :
    (l.map f).any p = l.any (p ∘ f) := by
  induction l with
  | nil => rfl
  | cons a l ih => rw [List.map_cons, List.any_cons, List.any_cons, ih]; rfl

/-- Cardinality of the union of two duplicate-free lists: all of the
first, plus the members of the second missing from the first. -/
theorem card_union_toFinset {A B : List Cell} (h1 : A.Nodup) (h2 : B.Nodup) :
    (A ++ B).toFinset.card =
      A.length + B.countP (fun c => !(A.any fun x => x = c)) := by
  rw [List.toFinset_append, Finset.union_comm, ← Finset.card_sdiff_add_card,
    List.toFinset_card_of_nodup h1]
  have hset : B.toFinset \ A.toFinset =
      (B.filter (fun c => !(A.any fun x => x = c))).toFinset := by
    ext c
    simp only [Finset.mem_sdiff, List.mem_toFinset, List.mem_filter]
    constructor
    · rintro ⟨hb, hna⟩
      refine ⟨hb, ?_⟩
      cases hany : A.any fun x => x = c
      · rfl
      · obtain ⟨x, hx, hxc⟩ := List.any_eq_true.mp hany
        exact absurd (by rw [← of_decide_eq_true hxc]; exact hx) hna
    · rintro ⟨hb, hpred⟩
      refine ⟨hb, fun hc => ?_⟩
      have : (A.any fun x => x = c) = true :=
        List.any_eq_true.mpr ⟨c, hc, by simp⟩
      rw [this] at hpred
      exact Bool.noConfusion hpred
  rw [hset, List.toFinset_card_of_nodup (h2.filter _),
    ← List.countP_eq_length_filter, Nat.add_comm]

/-- The unmatched-count over pairs equals the same count over keys. -/
theorem countP_unmatched_keys (l1 l2 : List (Cell × Cell)) :
    l2.countP (fun q => !(l1.any fun p => p.1 = q.1)) =
      (l2.map Prod.fst).countP
        (fun c => !((l1.map Prod.fst).any fun x => x = c)) := by
  rw [List.countP_map]
  apply List.countP_congr
  intro q hq
  have : ((l1.map Prod.fst).any fun x => x = q.1) =
      (l1.any fun p => p.1 = q.1) := by
    rw [any_map_comp]
    rfl
  constructor
  · intro hb
    simpa [this] using hb
  · intro hb
    simpa [this] using hb

/-- C4: for every successful reconciliation, the summary counts add up
(`total_count = match_count + mismatch_count`), and with duplicate-free
key columns the total equals the number of distinct keys in the union
of the two projected key columns. -/
theorem C4_summary_counts {t1 : Table} {k1 v1 : String} {t2 : Table}
    {k2 v2 : String} {recs : List Rec}
    (h : reconcile t1 k1 v1 t2 k2 v2 = .ok recs) :
    total_count recs = match_count recs + mismatch_count recs ∧
    ((projKeys t1 k1).Nodup → (projKeys t2 k2).Nodup →
      total_count recs = (projKeys t1 k1 ++ projKeys t2 k2).toFinset.card) := by
  constructor
  · have hst := status_mem_ok h
    rw [total_count, match_count, mismatch_count,
      List.length_eq_countP_add_countP (fun r => decide (r.status = "Match"))]
    congr 1
    apply List.countP_congr
    intro r hr
    rcases hst r hr with hm | hm <;> simp [hm]
  · intro h1 h2
    obtain ⟨hrecs, -, -, -⟩ := reconcile_ok_elim h
    subst hrecs
    have hk1 := keys_projectPairs t1 k1 v1
    have hk2 := keys_projectPairs t2 k2 v2
    rw [total_count, List.length_map, outerMerge_length (hk2 ▸ h2),
      card_union_toFinset h1 h2, countP_unmatched_keys, hk1, hk2]
    congr 1
    rw [projectPairs, projKeys, List.length_map, List.length_map]

/-- Witness for C4 at the spec's §8 scenario tables. -/
theorem C4_summary_counts_witness :
    total_count [⟨.num 1, .num 10, .num 10, some 0, "Match"⟩,
      ⟨.num 2, .num 20, .num 25, some (-5), "Mismatch"⟩] =
      match_count [⟨.num 1, .num 10, .num 10, some 0, "Match"⟩,
        ⟨.num 2, .num 20, .num 25, some (-5), "Mismatch"⟩] +
      mismatch_count [⟨.num 1, .num 10, .num 10, some 0, "Match"⟩,
        ⟨.num 2, .num 20, .num 25, some (-5), "Mismatch"⟩] ∧
    ((projKeys ⟨["ID", "Amt"], [[.num 1, .num 10], [.num 2, .num 20]]⟩ "ID").Nodup →
     (projKeys ⟨["ID", "Amt"], [[.num 1, .num 10], [.num 2, .num 25]]⟩ "ID").Nodup →
      total_count [⟨.num 1, .num 10, .num 10, some 0, "Match"⟩,
        ⟨.num 2, .num 20, .num 25, some (-5), "Mismatch"⟩] =
      (projKeys ⟨["ID", "Amt"], [[.num 1, .num 10], [.num 2, .num 20]]⟩ "ID" ++
        projKeys ⟨["ID", "Amt"], [[.num 1, .num 10], [.num 2, .num 25]]⟩ "ID").toFinset.card) :=
  @C4_summary_counts
    ⟨["ID", "Amt"], [[.num 1, .num 10], [.num 2, .num 20]]⟩ "ID" "Amt"
    ⟨["ID", "Amt"], [[.num 1, .num 10], [.num 2, .num 25]]⟩ "ID" "Amt"
    [⟨.num 1, .num 10, .num 10, some 0, "Match"⟩,
     ⟨.num 2, .num 20, .num 25, some (-5), "Mismatch"⟩]
    (by decide)

/-- A permutation does not change `any`. -/
theorem perm_any {α : Type} {l l' : List α} (h : l.Perm l') (p : α → Bool) :
    l.any p = l'.any p := by
  have hiff : l.any p = true ↔ l'.any p = true := by
    rw [List.any_eq_true, List.any_eq_true]
    exact ⟨fun ⟨x, hx, hpx⟩ => ⟨x, h.mem_iff.mp hx, hpx⟩,
           fun ⟨x, hx, hpx⟩ => ⟨x, h.mem_iff.mpr hx, hpx⟩⟩
  cases ha : l.any p <;> cases hb : l'.any p
  · rfl
  · exact absurd (ha.symm.trans (hiff.mpr hb)) Bool.false_ne_true
  · exact absurd (hb.symm.trans (hiff.mp ha)) Bool.false_ne_true
  · rfl

/-- A permutation does not change `all`. -/
theorem perm_all {α : Type} {l l' : List α} (h : l.Perm l') (p : α → Bool) :
    l.all p = l'.all p := by
  have hiff : l.all p = true ↔ l'.all p = true := by
    rw [List.all_eq_true, List.all_eq_true]
    exact ⟨fun hx x hm => hx x (h.mem_iff.mpr hm),
           fun hx x hm => hx x (h.mem_iff.mp hm)⟩
  cases ha : l.all p <;> cases hb : l'.all p
  · rfl
  · exact absurd (ha.symm.trans (hiff.mpr hb)) Bool.false_ne_true
  · exact absurd (hb.symm.trans (hiff.mp ha)) Bool.false_ne_true
  · rfl

/-- Permuting the right table permutes one left row's contribution. -/
theorem joinLeft_perm {l2 l2' : List (Cell × Cell)} (h : l2.Perm l2')
    (p : Cell × Cell) : (joinLeft l2 p).Perm (joinLeft l2' p) := by
  rw [joinLeft, joinLeft]
  have hf : (l2.filter (fun q => q.1 = p.1)).Perm
      (l2'.filter (fun q => q.1 = p.1)) := h.filter _
  have hemp : (l2.filter (fun q => q.1 = p.1)).isEmpty =
      (l2'.filter (fun q => q.1 = p.1)).isEmpty := by
    rcases hns : l2'.filter (fun q => q.1 = p.1) with - | ⟨a, as⟩
    · rw [List.isEmpty_iff.mpr (List.Perm.eq_nil (hns ▸ hf))]
      rw [hns]
      rfl
    · rw [hns]
      cases hcs : l2.filter (fun q => q.1 = p.1)
      · rw [hcs] at hf
        exact absurd (hns ▸ hf.symm.eq_nil) (by simp)
      · rfl
  rw [hemp]
  by_cases he : (l2'.filter (fun q => q.1 = p.1)).isEmpty = true
  · rw [if_pos he, if_pos he]
  · rw [if_neg he, if_neg he]
    exact hf.map _

/-- Permuting the left table permutes the outer join. -/
theorem outerMerge_perm_left {l1 l1' l2 : List (Cell × Cell)}
    (h : l1.Perm l1') : (outerMerge l1 l2).Perm (outerMerge l1' l2) := by
  rw [outerMerge, outerMerge]
  refine List.Perm.append (List.Perm.flatMap_right _ h) ?_
  rw [rightOnly, rightOnly]
  have : l2.filter (fun q => !(l1.any fun p => p.1 = q.1)) =
      l2.filter (fun q => !(l1'.any fun p => p.1 = q.1)) :=
    List.filter_congr fun q hq => by rw [perm_any h]
  rw [this]

/-- Permuting the right table permutes the outer join. -/
theorem outerMerge_perm_right {l1 l2 l2' : List (Cell × Cell)}
    (h : l2.Perm l2') : (outerMerge l1 l2).Perm (outerMerge l1 l2') := by
  rw [outerMerge, outerMerge]
  exact List.Perm.append
    (List.Perm.flatMap_left _ fun p _ => joinLeft_perm h p)
    ((h.filter _).map _)

/-- C7: `reconcile` is deterministic — the same inputs give the same
output — and permuting the rows of either input table permutes the
record sequence: the multiset of output records is unchanged. -/
theorem C7_deterministic_perm_invariant {t1 t1' : Table} {k1 v1 : String}
    {t2 t2' : Table} {k2 v2 : String} {recs : List Rec} :
    (reconcile t1 k1 v1 t2 k2 v2 = reconcile t1 k1 v1 t2 k2 v2) ∧
    (t1.cols = t1'.cols → t2.cols = t2'.cols →
     t1.rows.Perm t1'.rows → t2.rows.Perm t2'.rows →
     reconcile t1 k1 v1 t2 k2 v2 = .ok recs →
     ∃ recs', reconcile t1' k1 v1 t2' k2 v2 = .ok recs' ∧ recs.Perm recs') := by
  refine ⟨rfl, ?_⟩
  intro hc1 hc2 hp1 hp2 hok
  obtain ⟨hrecs, hall, h1, h2⟩ := reconcile_ok_elim hok
  have hpp1 : (projectPairs t1 k1 v1).Perm (projectPairs t1' k1 v1) := by
    rw [projectPairs, projectPairs, ← hc1]
    exact hp1.map _
  have hpp2 : (projectPairs t2 k2 v2).Perm (projectPairs t2' k2 v2) := by
    rw [projectPairs, projectPairs, ← hc2]
    exact hp2.map _
  have hmerged : (outerMerge (projectPairs t1 k1 v1) (projectPairs t2 k2 v2)).Perm
      (outerMerge (projectPairs t1' k1 v1) (projectPairs t2' k2 v2)) :=
    (outerMerge_perm_left hpp1).trans (outerMerge_perm_right hpp2)
  refine ⟨(outerMerge (projectPairs t1' k1 v1) (projectPairs t2' k2 v2)).map mkRec,
    ?_, ?_⟩
  · unfold reconcile
    rw [if_pos (hc1 ▸ h1), if_pos (hc2 ▸ h2),
      if_pos ((perm_all hmerged _) ▸ hall)]
  · rw [hrecs]
    exact hmerged.map mkRec

/-- Witness for C7: swapping the two rows of the first table leaves the
record multiset unchanged. -/
theorem C7_deterministic_perm_invariant_witness :
    (reconcile ⟨["ID", "Amt"], [[.num 1, .num 10], [.num 2, .num 20]]⟩ "ID" "Amt"
      ⟨["ID", "Amt"], [[.num 1, .num 10]]⟩ "ID" "Amt" =
     reconcile ⟨["ID", "Amt"], [[.num 1, .num 10], [.num 2, .num 20]]⟩ "ID" "Amt"
      ⟨["ID", "Amt"], [[.num 1, .num 10]]⟩ "ID" "Amt") ∧
    ∃ recs', reconcile ⟨["ID", "Amt"], [[.num 2, .num 20], [.num 1, .num 10]]⟩
        "ID" "Amt" ⟨["ID", "Amt"], [[.num 1, .num 10]]⟩ "ID" "Amt" = .ok recs' ∧
      ([⟨.num 1, .num 10, .num 10, some 0, "Match"⟩,
        ⟨.num 2, .num 20, .missing, none, "Match"⟩] : List Rec).Perm recs' := by
  have h := @C7_deterministic_perm_invariant
    ⟨["ID", "Amt"], [[.num 1, .num 10], [.num 2, .num 20]]⟩
    ⟨["ID", "Amt"], [[.num 2, .num 20], [.num 1, .num 10]]⟩ "ID" "Amt"
    ⟨["ID", "Amt"], [[.num 1, .num 10]]⟩
    ⟨["ID", "Amt"], [[.num 1, .num 10]]⟩ "ID" "Amt"
    [⟨.num 1, .num 10, .num 10, some 0, "Match"⟩,
     ⟨.num 2, .num 20, .missing, none, "Match"⟩]
  exact ⟨h.1, h.2 (by decide) (by decide) (by decide) (by decide) (by decide)⟩

/-- Value of a digit character produced by `Nat.digitChar`. -/
theorem digitChar_val {d : ℕ} (h : d < 10) :
    (Nat.digitChar d).toNat - 48 = d := by
  interval_cases d <;> rfl

/-- Characters produced by `Nat.digitChar` for digits are digits. -/
theorem digitChar_isDigit {d : ℕ} (h : d < 10) :
    (Nat.digitChar d).isDigit = true := by
  interval_cases d <;> rfl

/-- The fuel-driven digit print agrees with `Nat.digits` once the fuel
covers the number. -/
theorem digitsRevChars_eq : ∀ (fuel n : ℕ), n ≤ fuel →
    digitsRevChars fuel n = (Nat.digits 10 n).map Nat.digitChar := by
  intro fuel
  induction fuel with
  | zero =>
    intro n hn
    interval_cases n
    rw [Nat.digits_zero]
    rfl
  | succ fuel ih =>
    intro n hn
    rw [digitsRevChars]
    by_cases h0 : n = 0
    · rw [if_pos h0, h0, Nat.digits_zero]
      rfl
    · rw [if_neg h0, @Nat.digits_def' 10 (by norm_num) n
        (Nat.pos_of_ne_zero h0), List.map_cons, ih (n / 10) (by
          have := Nat.div_lt_self (Nat.pos_of_ne_zero h0)
            (show 1 < 10 by norm_num)
          omega)]

/-- The printed digit characters, through `Nat.digits`. -/
theorem natChars_eq (n : ℕ) :
    natChars n = ((Nat.digits 10 n).map Nat.digitChar).reverse := by
  rw [natChars, digitsRevChars_eq n n le_rfl]

/-- Folding the decimal parser over printed digits recovers the number
(with the accumulator scaled by the printed length). -/
theorem foldl_digits (ds : List ℕ) (hd : ∀ d ∈ ds, d < 10) (a : ℕ) :
    ((ds.map Nat.digitChar).reverse).foldl
      (fun a c => 10 * a + (c.toNat - 48)) a =
    a * 10 ^ ds.length + Nat.ofDigits 10 ds := by
  induction ds generalizing a with
  | nil => simp
  | cons d ds ih =>
    rw [List.map_cons, List.reverse_cons, List.foldl_append,
      ih (fun x hx => hd x (List.mem_cons_of_mem d hx))]
    simp only [List.foldl_cons, List.foldl_nil, Nat.ofDigits_cons,
      List.length_cons, digitChar_val (hd d (List.mem_cons_self d ds))]
    ring

/-- Parsing the printed digits of `n` recovers `n`. -/
theorem charsToNat_natChars (n : ℕ) : charsToNat (natChars n) = n := by
  rw [charsToNat, natChars_eq,
    foldl_digits _ (fun d hd => Nat.digits_lt_base (by norm_num) hd) 0]
  rw [Nat.ofDigits_digits]
  ring

/-- Parsing the padded printed digits of `n` recovers `n`. -/
theorem charsToNat_natCharsD (n : ℕ) : charsToNat (natCharsD n) = n := by
  rw [natCharsD]
  by_cases h : n = 0
  · rw [if_pos h, h]
    rfl
  · rw [if_neg h]
    exact charsToNat_natChars n

/-- Leading zero characters do not change the parsed value. -/
theorem charsToNat_replicate_zero (m : ℕ) (cs : List Char) :
    charsToNat (List.replicate m '0' ++ cs) = charsToNat cs := by
  rw [charsToNat, charsToNat, List.foldl_append]
  congr 1
  induction m with
  | zero => rfl
  | succ m ih => rw [List.replicate_succ, List.foldl_cons]; exact ih

/-- All printed digit characters are digits. -/
theorem natChars_isDigit {n : ℕ} : ∀ c ∈ natChars n, c.isDigit = true := by
  intro c hc
  rw [natChars_eq, List.mem_reverse] at hc
  obtain ⟨d, hd, rfl⟩ := List.mem_map.mp hc
  exact digitChar_isDigit (Nat.digits_lt_base (by norm_num) hd)

/-- All padded printed digit characters are digits. -/
theorem natCharsD_isDigit {n : ℕ} : ∀ c ∈ natCharsD n, c.isDigit = true := by
  intro c hc
  rw [natCharsD] at hc
  by_cases h : n = 0
  · rw [if_pos h] at hc
    rw [List.mem_singleton.mp hc]
    rfl
  · rw [if_neg h] at hc
    exact natChars_isDigit c hc

/-- The padded digit print is never empty. -/
theorem natCharsD_ne_nil (n : ℕ) : natCharsD n ≠ [] := by
  rw [natCharsD]
  by_cases h : n = 0
  · rw [if_pos h]
    exact List.cons_ne_nil _ _
  · rw [if_neg h, natChars_eq, ← List.length_pos, List.length_reverse,
      List.length_map]
    exact List.length_pos.mpr (Nat.digits_ne_nil_iff_ne_zero.mpr h)

/-- The digit print of `m < 10 ^ k` has at most `k` characters. -/
theorem natChars_length_le {m k : ℕ} (h : m < 10 ^ k) :
    (natChars m).length ≤ k := by
  rw [natChars_eq, List.length_reverse, List.length_map]
  by_cases hm : m = 0
  · simp [hm]
  · rw [Nat.digits_len 10 m (by norm_num) hm]
    have := Nat.log_lt_of_lt_pow hm h
    omega

/-- takeWhile consumes a fully satisfying list. -/
theorem takeWhile_all {α : Type} {p : α → Bool} :
    ∀ {a : List α}, (∀ c ∈ a, p c = true) →
      a.takeWhile p = a ∧ a.dropWhile p = [] := by
  intro a
  induction a with
  | nil => intro h; exact ⟨rfl, rfl⟩
  | cons x xs ih =>
    intro h
    have hx := h x (List.mem_cons_self x xs)
    have := ih (fun c hc => h c (List.mem_cons_of_mem x hc))
    rw [List.takeWhile_cons, List.dropWhile_cons, hx]
    exact ⟨by rw [if_pos rfl, this.1], by rw [if_pos rfl, this.2]⟩

/-- takeWhile stops exactly at the first failing element. -/
theorem takeWhile_append_stop {α : Type} {p : α → Bool} {x : α}
    (hx : p x = false) :
    ∀ {a : List α} (r : List α), (∀ c ∈ a, p c = true) →
      (a ++ x :: r).takeWhile p = a ∧ (a ++ x :: r).dropWhile p = x :: r := by
  intro a
  induction a with
  | nil =>
    intro r h
    rw [List.nil_append, List.takeWhile_cons, List.dropWhile_cons, hx]
    exact ⟨rfl, rfl⟩
  | cons y ys ih =>
    intro r h
    have hy := h y (List.mem_cons_self y ys)
    have := ih r (fun c hc => h c (List.mem_cons_of_mem y hc))
    rw [List.cons_append, List.takeWhile_cons, List.dropWhile_cons, hy]
    exact ⟨by rw [if_pos rfl, this.1], by rw [if_pos rfl, this.2]⟩


/-- The decimal print of `a` with `k` places parses back to
`a / 10 ^ k`. -/
theorem parseUnsigned_decChars (a k : ℕ) :
    parseUnsigned (decChars a k) = some (mkRat a (10 ^ k)) := by
  rw [decChars]
  by_cases hk : k = 0
  · rw [if_pos hk]
    obtain ⟨ht, hd⟩ := takeWhile_all (@natCharsD_isDigit a)
    rw [parseUnsigned]
    simp only [ht, hd, List.isEmpty_nil, if_true]
    rw [if_neg (by simpa [List.isEmpty_iff] using natCharsD_ne_nil a),
      charsToNat_natCharsD, hk]
    norm_num
  · rw [if_neg hk]
    have hfrac_digits : ∀ c ∈ List.replicate
        (k - (natChars (a % 10 ^ k)).length) '0' ++ natChars (a % 10 ^ k),
        c.isDigit = true := by
      intro c hc
      rcases List.mem_append.mp hc with hc | hc
      · rw [List.eq_of_mem_replicate hc]
        rfl
      · exact natChars_isDigit c hc
    obtain ⟨ht, hd⟩ := @takeWhile_append_stop Char Char.isDigit '.'
      (by rfl) (natCharsD (a / 10 ^ k))
      (List.replicate (k - (natChars (a % 10 ^ k)).length) '0' ++
        natChars (a % 10 ^ k))
      (@natCharsD_isDigit (a / 10 ^ k))
    obtain ⟨ht2, hd2⟩ := takeWhile_all hfrac_digits
    rw [parseUnsigned]
    simp only [ht, hd, List.isEmpty_cons, Bool.false_eq_true, if_false,
      List.head?_cons, List.tail_cons, ht2, hd2, List.isEmpty_nil, if_true]
    have hlen : (List.replicate (k - (natChars (a % 10 ^ k)).length) '0' ++
        natChars (a % 10 ^ k)).length = k := by
      rw [List.length_append, List.length_replicate]
      have : (natChars (a % 10 ^ k)).length ≤ k :=
        natChars_length_le (Nat.mod_lt a (Nat.pos_pow_of_pos k (by norm_num)))
      omega
    rw [if_pos (by
      refine (Bool.and_eq_true _ _).mpr ⟨rfl, ?_⟩
      have hne : (natCharsD (a / 10 ^ k)).isEmpty = false := by
        cases hcs : natCharsD (a / 10 ^ k)
        · exact absurd hcs (natCharsD_ne_nil _)
        · rfl
      rw [hne]
      rfl)]
    rw [charsToNat_replicate_zero, charsToNat_natChars, charsToNat_natCharsD,
      hlen]
    have hnat : a / 10 ^ k * 10 ^ k + a % 10 ^ k = a := by
      rw [Nat.mul_comm]
      exact Nat.div_add_mod a (10 ^ k)
    have hint : (↑(a / 10 ^ k) * 10 ^ k + ↑(a % 10 ^ k) : ℤ) = (a : ℤ) := by
      exact_mod_cast congrArg (Nat.cast : ℕ → ℤ) hnat
    rw [hint]

/-- A decimal print is never empty. -/
theorem decChars_ne_nil (a k : ℕ) : decChars a k ≠ [] := by
  rw [decChars]
  by_cases hk : k = 0
  · rw [if_pos hk]
    exact natCharsD_ne_nil a
  · rw [if_neg hk]
    intro h
    exact natCharsD_ne_nil (a / 10 ^ k) (List.append_eq_nil.mp h).1

/-- A decimal print starts with a digit. -/
theorem decChars_head_digit (a k : ℕ) :
    ∃ c cs, decChars a k = c :: cs ∧ c.isDigit = true := by
  have hhd : ∀ l, l = natCharsD a ∨ l = natCharsD (a / 10 ^ k) →
      ∃ c cs', l = c :: cs' ∧ c.isDigit = true := by
    intro l hl
    rcases hc : l with - | ⟨c, cs'⟩
    · rcases hl with rfl | rfl <;> exact absurd hc (natCharsD_ne_nil _)
    · refine ⟨c, cs', rfl, ?_⟩
      rcases hl with rfl | rfl <;>
        exact natCharsD_isDigit c (by rw [hc]; exact List.mem_cons_self c cs')
  rw [decChars]
  by_cases hk : k = 0
  · rw [if_pos hk]
    exact hhd _ (Or.inl rfl)
  · rw [if_neg hk]
    obtain ⟨c, cs', hcs, hdig⟩ := hhd (natCharsD (a / 10 ^ k)) (Or.inr rfl)
    exact ⟨c, cs' ++ '.' :: (List.replicate (k - (natChars (a % 10 ^ k)).length)
      '0' ++ natChars (a % 10 ^ k)), by rw [hcs]; rfl, hdig⟩

/-- A digit character is not a sign character. -/
theorem isDigit_ne_sign {c : Char} (h : c.isDigit = true) :
    c ≠ '-' ∧ c ≠ '+' := by
  constructor <;> intro heq <;> rw [heq] at h <;> exact absurd h (by decide)

/-- Parsing a signless decimal print: the sign checks fall through. -/
theorem parseNum_decChars (a k : ℕ) :
    parseNum (decChars a k) = some (mkRat a (10 ^ k)) := by
  obtain ⟨c, cs, hcs, hdig⟩ := decChars_head_digit a k
  obtain ⟨hm, hp⟩ := isDigit_ne_sign hdig
  rw [parseNum, hcs]
  rw [if_neg (by simp), if_neg (by simpa using hm), if_neg (by simpa using hp),
    ← hcs]
  exact parseUnsigned_decChars a k

/-- The exact decimal rendering of a decimal-representable rational
parses back to the same rational under numeric coercion. -/
theorem parseNum_showRat {q : ℚ} (h : decOkB q = true) :
    parseNum (showRat q) = some q := by
  have hden : (q * 10 ^ decExp q).den = 1 := by
    have := of_decide_eq_true h
    rwa [shift10_eq] at this
  have hz : (((q * 10 ^ decExp q).num : ℤ) : ℚ) = q * 10 ^ decExp q :=
    (Rat.den_eq_one_iff _).mp hden
  have hpow : ((10 : ℚ) ^ decExp q) ≠ 0 := by positivity
  rw [showRat]
  simp only [shift10_eq]
  by_cases hneg : q < 0
  · rw [if_pos hneg, parseNum]
    rw [if_neg (by simp), if_pos (by simp), List.tail_cons,
      parseUnsigned_decChars]
    have hnum : (q * 10 ^ decExp q).num < 0 := by
      rw [Rat.num_neg]
      exact mul_neg_of_neg_of_pos hneg (by positivity)
    have habs : (((q * 10 ^ decExp q).num.natAbs : ℤ) : ℚ) =
        -(q * 10 ^ decExp q) := by
      rw [Int.ofNat_natAbs_of_nonpos (le_of_lt hnum)]
      push_cast [hz]
      ring
    rw [Option.map_some', Rat.mkRat_eq_div]
    congr 1
    push_cast [habs]
    field_simp
    rw [abs_of_neg (show ((q * 10 ^ decExp q).num : ℚ) < 0 by
      exact_mod_cast hnum), neg_neg]
    exact hz
  · rw [if_neg hneg, parseNum_decChars]
    have hnum : 0 ≤ (q * 10 ^ decExp q).num := by
      rw [Rat.num_nonneg]
      exact mul_nonneg (not_lt.mp hneg) (by positivity)
    have habs : (((q * 10 ^ decExp q).num.natAbs : ℤ) : ℚ) =
        q * 10 ^ decExp q := by
      rw [Int.natAbs_of_nonneg hnum]
      exact hz
    rw [Rat.mkRat_eq_div]
    congr 1
    push_cast [habs]
    field_simp
    rw [abs_of_nonneg (show (0 : ℚ) ≤ ((q * 10 ^ decExp q).num : ℚ) by
      exact_mod_cast hnum)]
    exact hz

/-- Characters of a decimal print: digits, the point, nothing else. -/
theorem decChars_chars (a k : ℕ) :
    ∀ c ∈ decChars a k, (c.isDigit || c = '.' || c = '-') = true := by
  intro c hc
  rw [decChars] at hc
  by_cases hk : k = 0
  · rw [if_pos hk] at hc
    rw [natCharsD_isDigit c hc]
    rfl
  · rw [if_neg hk] at hc
    rcases List.mem_append.mp hc with hc | hc
    · rw [natCharsD_isDigit c hc]
      rfl
    · rcases List.mem_cons.mp hc with rfl | hc
      · rfl
      · rcases List.mem_append.mp hc with hc | hc
        · rw [List.eq_of_mem_replicate hc]
          rfl
        · rw [natChars_isDigit c hc]
          rfl

/-- Characters of the rendering of a rational: digits, point, minus. -/
theorem showRat_chars (q : ℚ) :
    ∀ c ∈ showRat q, (c.isDigit || c = '.' || c = '-') = true := by
  intro c hc
  rw [showRat] at hc
  by_cases hneg : q < 0
  · rw [if_pos hneg] at hc
    rcases List.mem_cons.mp hc with rfl | hc
    · rfl
    · exact decChars_chars _ _ c hc
  · rw [if_neg hneg] at hc
    exact decChars_chars _ _ c hc

/-- The rendering of a rational is never the empty field. -/
theorem showRat_ne_nil (q : ℚ) : showRat q ≠ [] := by
  rw [showRat]
  by_cases hneg : q < 0
  · rw [if_pos hneg]
    exact List.cons_ne_nil _ _
  · rw [if_neg hneg]
    exact decChars_ne_nil _ _

/-- The NA markers all contain a character no numeric rendering has (or
are empty). -/
theorem naMarkers_excluded :
    naMarkers.all (fun s => s.data.isEmpty ||
      s.data.any (fun c => !(c.isDigit || c = '.' || c = '-'))) = true := by
  decide

/-- A rendered decimal-representable rational field re-parses to the
same numeric cell. -/
theorem parseField_showRat {q : ℚ} (h : decOkB q = true) :
    parseField (showRat q) = .num q := by
  rw [parseField]
  rw [if_neg (by simpa [List.isEmpty_iff] using showRat_ne_nil q)]
  have hna : naMarkers.contains (String.mk (showRat q)) = false := by
    cases hcon : naMarkers.contains (String.mk (showRat q))
    · rfl
    · have hmem : String.mk (showRat q) ∈ naMarkers := by simpa using hcon
      have hbad := List.all_eq_true.mp naMarkers_excluded _ hmem
      exfalso
      rcases Bool.or_eq_true _ _ ▸ hbad with hemp | hany
      · exact showRat_ne_nil q (List.isEmpty_iff.mp hemp)
      · obtain ⟨c, hc, hcbad⟩ := List.any_eq_true.mp hany
        rw [showRat_chars q c hc] at hcbad
        exact Bool.noConfusion hcbad
  rw [if_neg (fun hc => Bool.noConfusion (hna ▸ hc)), parseNum_showRat h]

/-- The missing field round-trips. -/
theorem parseField_missing : parseField (showField .missing) = .missing := rfl

/-- A safe text field is written verbatim, without quoting. -/
theorem showField_text_safe {s : String} (h : safeTextB s = true) :
    showField (.text s) = s.data := by
  have hq : (s.data.any needsQuoteChar) = false := by
    have := ((Bool.and_eq_true _ _).mp h).2
    cases hv : s.data.any needsQuoteChar
    · rfl
    · rw [hv] at this
      exact absurd this (by decide)
  rw [showField, if_neg (fun hc => Bool.noConfusion (hq ▸ hc))]

/-- A safe text field re-parses to the same text cell. -/
theorem parseField_text_safe {s : String} (h : safeTextB s = true) :
    parseField (showField (.text s)) = .text s := by
  rw [showField_text_safe h]
  rw [safeTextB] at h
  have h1 := (Bool.and_eq_true _ _).mp h
  have h2 := (Bool.and_eq_true _ _).mp h1.1
  have h3 := (Bool.and_eq_true _ _).mp h2.1
  have hemp : s.data.isEmpty = false := by simpa using h3.1
  have hcon : naMarkers.contains s = false := by simpa using h3.2
  have hnum : parseNum s.data = none := by
    have := h2.2
    rwa [Option.isNone_iff_eq_none] at this
  have hcon' : naMarkers.contains (String.mk s.data) = false := hcon
  rw [parseField, if_neg (fun hc => Bool.noConfusion (hemp ▸ hc)),
    if_neg (fun hc => Bool.noConfusion (hcon' ▸ hc)), hnum]

/-- A round-trip-safe InvoiceID cell is reproduced by write-then-parse. -/
theorem parseField_showField_id {c : Cell} (h : idSafeB c = true) :
    parseField (showField c) = c := by
  cases c with
  | missing => exact parseField_missing
  | num q => exact parseField_showRat h
  | text s => exact parseField_text_safe h

/-- A round-trip-safe value cell is reproduced by write-then-parse. -/
theorem parseField_showField_val {c : Cell} (h : valSafeB c = true) :
    parseField (showField c) = c := by
  cases c with
  | missing => exact parseField_missing
  | num q => exact parseField_showRat h
  | text s => exact absurd h (by simp [valSafeB])

/-- Splitting a separator-free list yields that single part. -/
theorem splitOnChar_no {c : Char} :
    ∀ {l : List Char}, (∀ x ∈ l, x ≠ c) → splitOnChar c l = [l] := by
  intro l
  induction l with
  | nil => intro h; rfl
  | cons x xs ih =>
    intro h
    rw [splitOnChar]
    simp only [ih (fun y hy => h y (List.mem_cons_of_mem x hy))]
    rw [if_neg (h x (List.mem_cons_self x xs))]
    rfl

/-- Splitting at the first separator peels off the first part. -/
theorem splitOnChar_append {c : Char} :
    ∀ {l : List Char} (r : List Char), (∀ x ∈ l, x ≠ c) →
      splitOnChar c (l ++ c :: r) = l :: splitOnChar c r := by
  intro l
  induction l with
  | nil =>
    intro r h
    rw [List.nil_append, splitOnChar]
    simp only [if_pos rfl, if_true]
  | cons x xs ih =>
    intro r h
    rw [List.cons_append, splitOnChar]
    simp only [ih r (fun y hy => h y (List.mem_cons_of_mem x hy))]
    rw [if_neg (h x (List.mem_cons_self x xs))]
    rfl

/-- Characters in the numeric/point/minus class are not csv-special. -/
theorem charClass_not_special {c : Char}
    (h : (c.isDigit || c = '.' || c = '-') = true) :
    needsQuoteChar c = false := by
  rcases Bool.or_eq_true _ _ ▸ h with h1 | h2
  · rcases Bool.or_eq_true _ _ ▸ h1 with hd | hp
    · have hne : c ≠ ',' ∧ c ≠ '"' ∧ c ≠ '\n' ∧ c ≠ '\r' := by
        refine ⟨?_, ?_, ?_, ?_⟩ <;> intro heq <;> rw [heq] at hd <;>
          exact absurd hd (by decide)
      rw [needsQuoteChar, decide_eq_false hne.1, decide_eq_false hne.2.1,
        decide_eq_false hne.2.2.1, decide_eq_false hne.2.2.2]
      rfl
    · rw [of_decide_eq_true hp]
      rfl
  · rw [of_decide_eq_true h2]
    rfl

/-- No character of a written field is csv-special, for round-trip-safe
cells. -/
theorem showField_no_specials {c : Cell}
    (h : idSafeB c = true ∨ valSafeB c = true) :
    ∀ x ∈ showField c, needsQuoteChar x = false := by
  intro x hx
  cases c with
  | missing => exact absurd hx (List.not_mem_nil x)
  | num q => exact charClass_not_special (showRat_chars q x hx)
  | text s =>
    have hs : safeTextB s = true := by
      rcases h with h | h
      · exact h
      · exact absurd h (by simp [valSafeB])
    rw [showField_text_safe hs] at hx
    have hq : (s.data.any needsQuoteChar) = false := by
      have := ((Bool.and_eq_true _ _).mp hs).2
      cases hv : s.data.any needsQuoteChar
      · rfl
      · rw [hv] at this
        exact absurd this (by decide)
    exact List.any_eq_false.mp hq x hx |> fun hnp => by
      cases hv : needsQuoteChar x
      · rfl
      · exact absurd hv hnp

/-- A non-special character is not the delimiter. -/
theorem not_special_ne_comma {c : Char} (h : needsQuoteChar c = false) :
    c ≠ ',' := by
  intro heq
  rw [heq] at h
  exact absurd h (by decide)

/-- A non-special character is not the line terminator. -/
theorem not_special_ne_newline {c : Char} (h : needsQuoteChar c = false) :
    c ≠ '\n' := by
  intro heq
  rw [heq] at h
  exact absurd h (by decide)

/-- Splitting a five-field csv row recovers the five fields. -/
theorem splitOnChar_five {f1 f2 f3 f4 f5 : List Char}
    (h1 : ∀ x ∈ f1, x ≠ ',') (h2 : ∀ x ∈ f2, x ≠ ',')
    (h3 : ∀ x ∈ f3, x ≠ ',') (h4 : ∀ x ∈ f4, x ≠ ',')
    (h5 : ∀ x ∈ f5, x ≠ ',') :
    splitOnChar ',' (f1 ++ ',' :: (f2 ++ ',' :: (f3 ++ ',' ::
      (f4 ++ ',' :: f5)))) = [f1, f2, f3, f4, f5] := by
  rw [splitOnChar_append _ h1, splitOnChar_append _ h2,
    splitOnChar_append _ h3, splitOnChar_append _ h4, splitOnChar_no h5]

/-- A csv data row is never the empty line. -/
theorem rowChars_ne_nil (r : Rec) : rowChars r ≠ [] := by
  rw [rowChars]
  intro h
  exact List.cons_ne_nil _ _ (List.append_eq_nil.mp h).2

/-- Splitting the newline-terminated rows recovers them (plus the final
empty part). -/
theorem splitOnChar_body :
    ∀ (rs : List Rec), (∀ r ∈ rs, ∀ x ∈ rowChars r, x ≠ '\n') →
    splitOnChar '\n' (rs.flatMap (fun r => rowChars r ++ ['\n'])) =
      rs.map rowChars ++ [[]] := by
  intro rs
  induction rs with
  | nil => intro h; rfl
  | cons r rs ih =>
    intro h
    rw [List.flatMap_cons, List.append_assoc, List.singleton_append,
      splitOnChar_append _ (h r (List.mem_cons_self r rs)),
      ih (fun x hx => h x (List.mem_cons_of_mem r hx))]
    rfl

/-- A product of 2s and 5s is determined by the two multiplicities. -/
theorem prod_two_five :
    ∀ (l : List ℕ), (∀ x ∈ l, x = 2 ∨ x = 5) →
      l.prod = 2 ^ l.count 2 * 5 ^ l.count 5 := by
  intro l
  induction l with
  | nil => intro h; rfl
  | cons x xs ih =>
    intro h
    have hx := h x (List.mem_cons_self x xs)
    have hxs := ih (fun y hy => h y (List.mem_cons_of_mem x hy))
    rcases hx with rfl | rfl
    · rw [List.prod_cons, hxs, List.count_cons_self,
        List.count_cons_of_ne (by norm_num)]
      ring
    · rw [List.prod_cons, hxs, List.count_cons_self,
        List.count_cons_of_ne (by norm_num)]
      ring

/-- A prime dividing 10 is 2 or 5. -/
theorem prime_dvd_ten {p : ℕ} (hp : p.Prime) (hd : p ∣ 10) :
    p = 2 ∨ p = 5 := by
  have h2 : 2 ≤ p := hp.two_le
  have h10 : p ≤ 10 := Nat.le_of_dvd (by norm_num) hd
  interval_cases p <;> revert hd hp <;> decide

/-- The bounded exponent search succeeds whenever a witness exists in
its range. -/
theorem findExp_dvd : ∀ (fuel d k0 : ℕ),
    (∃ j, k0 ≤ j ∧ j ≤ k0 + fuel ∧ d ∣ 10 ^ j) →
    d ∣ 10 ^ findExp fuel d k0 := by
  intro fuel
  induction fuel with
  | zero =>
    rintro d k0 ⟨j, hj1, hj2, hjd⟩
    rw [findExp]
    have : j = k0 := by omega
    rwa [← this]
  | succ fuel ih =>
    rintro d k0 ⟨j, hj1, hj2, hjd⟩
    rw [findExp]
    by_cases hk : d ∣ 10 ^ k0
    · rwa [if_pos hk]
    · rw [if_neg hk]
      have hjne : j ≠ k0 := fun he => hk (he ▸ hjd)
      exact ih d (k0 + 1) ⟨j, by omega, by omega, hjd⟩

/-- A denominator dividing a power of ten divides ten to the printing
exponent, so the value has an exact finite decimal expansion. -/
theorem decOkB_of_den_dvd {q : ℚ} {j : ℕ} (h : q.den ∣ 10 ^ j) :
    decOkB q = true := by
  have hd0 : q.den ≠ 0 := q.den_pos.ne'
  have hfactors : ∀ p ∈ q.den.primeFactorsList, p = 2 ∨ p = 5 := by
    intro p hp
    have hprime := Nat.prime_of_mem_primeFactorsList hp
    have hpdvd : p ∣ 10 ^ j := (Nat.dvd_of_mem_primeFactorsList hp).trans h
    exact prime_dvd_ten hprime (hprime.dvd_of_dvd_pow hpdvd)
  have hden : q.den = 2 ^ (q.den.primeFactorsList.count 2) *
      5 ^ (q.den.primeFactorsList.count 5) := by
    rw [← prod_two_five _ hfactors, Nat.prod_primeFactorsList hd0]
  have hdvd : q.den ∣ 10 ^ decExp q := by
    have hm : q.den ∣ 10 ^ max (q.den.primeFactorsList.count 2)
        (q.den.primeFactorsList.count 5) := by
      conv_lhs => rw [hden]
      rw [show (10 : ℕ) = 2 * 5 by norm_num, mul_pow]
      exact mul_dvd_mul (pow_dvd_pow 2 (le_max_left _ _))
        (pow_dvd_pow 5 (le_max_right _ _))
    have hale : q.den.primeFactorsList.count 2 ≤ q.den := by
      have h1 : q.den.primeFactorsList.count 2 <
          2 ^ q.den.primeFactorsList.count 2 := Nat.lt_two_pow _
      have h2 : 2 ^ q.den.primeFactorsList.count 2 ≤ q.den := by
        conv_rhs => rw [hden]
        exact Nat.le_mul_of_pos_right _ (pow_pos (by norm_num) _)
      omega
    have hble : q.den.primeFactorsList.count 5 ≤ q.den := by
      have h1 : q.den.primeFactorsList.count 5 <
          5 ^ q.den.primeFactorsList.count 5 :=
        Nat.lt_pow_self (by norm_num) _
      have h2 : 5 ^ q.den.primeFactorsList.count 5 ≤ q.den := by
        conv_rhs => rw [hden]
        exact Nat.le_mul_of_pos_left _ (pow_pos (by norm_num) _)
      omega
    rw [decExp]
    exact findExp_dvd q.den q.den 0
      ⟨max (q.den.primeFactorsList.count 2) (q.den.primeFactorsList.count 5),
       Nat.zero_le _, by omega, hm⟩
  obtain ⟨cq, hcq⟩ := hdvd
  have hcQ : ((q.den : ℚ)) * cq = 10 ^ decExp q := by
    exact_mod_cast congrArg (Nat.cast : ℕ → ℚ) hcq.symm
  have hden0 : ((q.den : ℚ)) ≠ 0 := by exact_mod_cast hd0
  have hqden : q * (q.den : ℚ) = (q.num : ℚ) :=
    ((div_eq_iff hden0).mp (Rat.num_div_den q)).symm
  have hint : q * 10 ^ decExp q = ((q.num * (cq : ℤ) : ℤ) : ℚ) := by
    rw [← hcQ, ← mul_assoc, hqden]
    push_cast
    ring
  rw [decOkB, shift10_eq]
  rw [hint, Rat.den_intCast]
  rfl

/-- Unpack the decimal-representability flag into an integer scaling. -/
theorem decOkB_elim {q : ℚ} (h : decOkB q = true) :
    ∃ z : ℤ, q * 10 ^ decExp q = (z : ℚ) := by
  have hden : (q * 10 ^ decExp q).den = 1 := by
    have := of_decide_eq_true h
    rwa [shift10_eq] at this
  exact ⟨(q * 10 ^ decExp q).num, ((Rat.den_eq_one_iff _).mp hden).symm⟩

/-- Decimal representability is closed under the model's subtraction. -/
theorem decOkB_qsub {a b : ℚ} (ha : decOkB a = true) (hb : decOkB b = true) :
    decOkB (qsub a b) = true := by
  obtain ⟨za, hza⟩ := decOkB_elim ha
  obtain ⟨zb, hzb⟩ := decOkB_elim hb
  rw [qsub_eq]
  apply @decOkB_of_den_dvd (a - b) (decExp a + decExp b)
  have hpow : ∀ k : ℕ, ((10 : ℚ) ^ k) ≠ 0 := fun k => by positivity
  have hsub : a - b = Rat.divInt (za * 10 ^ decExp b - zb * 10 ^ decExp a)
      (10 ^ (decExp a + decExp b)) := by
    rw [Rat.divInt_eq_div]
    set ka := decExp a with hka
    set kb := decExp b with hkb
    have haq : a = (za : ℚ) / 10 ^ ka := by
      rw [← hza]
      field_simp
    have hbq : b = (zb : ℚ) / 10 ^ kb := by
      rw [← hzb]
      field_simp
    rw [haq, hbq]
    push_cast
    field_simp
    ring
  have hdvd := Rat.den_dvd (za * 10 ^ decExp b - zb * 10 ^ decExp a)
    ((10 : ℤ) ^ (decExp a + decExp b))
  rw [← hsub] at hdvd
  have : ((a - b).den : ℤ) ∣ ((10 ^ (decExp a + decExp b) : ℕ) : ℤ) := by
    push_cast
    exact hdvd
  exact_mod_cast this

/-- Re-parsing one written csv data row recovers the record's cells. -/
theorem parse_rowChars {r : Rec}
    (hid : idSafeB r.invoiceID = true)
    (hv1 : valSafeB r.value1 = true) (hv2 : valSafeB r.value2 = true)
    (hdiff : valSafeB (diffCell r.difference) = true)
    (hst : safeTextB r.status = true) :
    (match splitOnChar ',' (rowChars r) with
     | [a, b, c, d, e] => some [parseField a, parseField b, parseField c,
         parseField d, parseField e]
     | _ => none) =
    some [r.invoiceID, r.value1, r.value2, diffCell r.difference,
      .text r.status] := by
  have hcomma : ∀ (c : Cell), (idSafeB c = true ∨ valSafeB c = true) →
      ∀ x ∈ showField c, x ≠ ',' := fun c hc x hx =>
    not_special_ne_comma (showField_no_specials hc x hx)
  have hsplit : splitOnChar ',' (rowChars r) =
      [showField r.invoiceID, showField r.value1, showField r.value2,
       showField (diffCell r.difference), showField (.text r.status)] := by
    rw [rowChars]
    exact splitOnChar_five
      (hcomma _ (Or.inl hid)) (hcomma _ (Or.inr hv1)) (hcomma _ (Or.inr hv2))
      (hcomma _ (Or.inr hdiff))
      (hcomma _ (Or.inl (show idSafeB (.text r.status) = true from hst)))
  rw [hsplit]
  show some [parseField (showField r.invoiceID), parseField (showField r.value1),
    parseField (showField r.value2), parseField (showField (diffCell r.difference)),
    parseField (showField (.text r.status))] = _
  rw [parseField_showField_id hid, parseField_showField_val hv1,
    parseField_showField_val hv2, parseField_showField_val hdiff,
    parseField_text_safe hst]

/-- mapM over a written list succeeds pointwise. -/
theorem mapM_map_some {α β γ : Type} (F : β → Option γ) (g : α → β)
    (G : α → γ) : ∀ (l : List α), (∀ a ∈ l, F (g a) = some (G a)) →
      (l.map g).mapM F = some (l.map G) := by
  intro l
  induction l with
  | nil => intro h; rfl
  | cons a l ih =>
    intro h
    rw [List.map_cons, List.mapM_cons, h a (List.mem_cons_self a l),
      ih (fun x hx => h x (List.mem_cons_of_mem a hx)), List.map_cons]
    rfl

/-- The Difference of a successful run is the recomputed cell
subtraction of its two value cells. -/
theorem reconcile_ok_difference {t1 : Table} {k1 v1 : String} {t2 : Table}
    {k2 v2 : String} {recs : List Rec}
    (h : reconcile t1 k1 v1 t2 k2 v2 = .ok recs) :
    ∀ r ∈ recs, cellSub r.value1 r.value2 = some r.difference := by
  intro r hr
  obtain ⟨m, rfl, hsome⟩ := mem_reconcile_ok h hr
  obtain ⟨y, hy⟩ := Option.isSome_iff_exists.mp hsome
  simp [mkRec, hy]

/-- No character of a written csv data row is the line terminator, for
round-trip-safe records. -/
theorem rowChars_no_newline {r : Rec}
    (hid : idSafeB r.invoiceID = true)
    (hv1 : valSafeB r.value1 = true) (hv2 : valSafeB r.value2 = true)
    (hdiff : valSafeB (diffCell r.difference) = true)
    (hst : safeTextB r.status = true) :
    ∀ x ∈ rowChars r, x ≠ '\n' := by
  have hfield : ∀ (c : Cell), (idSafeB c = true ∨ valSafeB c = true) →
      ∀ x ∈ showField c, x ≠ '\n' := fun c hc x hx =>
    not_special_ne_newline (showField_no_specials hc x hx)
  intro x hx
  rw [rowChars] at hx
  rcases List.mem_append.mp hx with hx | hx
  · exact hfield _ (Or.inl hid) x hx
  rcases List.mem_cons.mp hx with rfl | hx
  · decide
  rcases List.mem_append.mp hx with hx | hx
  · exact hfield _ (Or.inr hv1) x hx
  rcases List.mem_cons.mp hx with rfl | hx
  · decide
  rcases List.mem_append.mp hx with hx | hx
  · exact hfield _ (Or.inr hv2) x hx
  rcases List.mem_cons.mp hx with rfl | hx
  · decide
  rcases List.mem_append.mp hx with hx | hx
  · exact hfield _ (Or.inr hdiff) x hx
  rcases List.mem_cons.mp hx with rfl | hx
  · decide
  exact hfield _ (Or.inl (show idSafeB (.text r.status) = true from hst)) x hx

/-- C9 amended: exporting a successful reconciliation to csv uses the
fixed header InvoiceID,Value1,Value2,Difference,Status with no index
column, and — provided every InvoiceID cell is round-trip safe (its
text not numeric-looking, not an NA marker, free of csv specials) and
every numeric value has a finite decimal expansion — re-parsing the
export with numeric coercion reproduces every record's
InvoiceID/Value1/Value2/Difference/Status cells exactly; the Difference
recomputed from the re-parsed values is the record's Difference (so it
agrees within any tolerance). -/
theorem C9_export_roundtrip {t1 : Table} {k1 v1 : String} {t2 : Table}
    {k2 v2 : String} {recs : List Rec}
    (h : reconcile t1 k1 v1 t2 k2 v2 = .ok recs)
    (hsafe : ∀ r ∈ recs, idSafeB r.invoiceID = true ∧
      valSafeB r.value1 = true ∧ valSafeB r.value2 = true) :
    parseCsv (toCsvChars recs) =
      some (["InvoiceID", "Value1", "Value2", "Difference", "Status"],
        recs.map (fun r => [r.invoiceID, r.value1, r.value2,
          diffCell r.difference, .text r.status])) ∧
    ∀ r ∈ recs, cellSub r.value1 r.value2 = some r.difference := by
  have hdiffrec := reconcile_ok_difference h
  refine ⟨?_, hdiffrec⟩
  have hstatus : ∀ r ∈ recs, safeTextB r.status = true := by
    intro r hr
    rcases status_mem_ok h r hr with hs | hs <;> rw [hs] <;> decide
  have hdiffsafe : ∀ r ∈ recs, valSafeB (diffCell r.difference) = true := by
    intro r hr
    obtain ⟨hid, hv1, hv2⟩ := hsafe r hr
    have hcs := hdiffrec r hr
    cases hc1 : r.value1 with
    | text s => rw [hc1] at hv1; exact absurd hv1 (by simp [valSafeB])
    | missing =>
      cases hc2 : r.value2 with
      | text s => rw [hc2] at hv2; exact absurd hv2 (by simp [valSafeB])
      | missing =>
        rw [hc1, hc2] at hcs
        rw [← Option.some.inj hcs]
        rfl
      | num b =>
        rw [hc1, hc2] at hcs
        rw [← Option.some.inj hcs]
        rfl
    | num a =>
      cases hc2 : r.value2 with
      | text s => rw [hc2] at hv2; exact absurd hv2 (by simp [valSafeB])
      | missing =>
        rw [hc1, hc2] at hcs
        rw [← Option.some.inj hcs]
        rfl
      | num b =>
        rw [hc1] at hv1
        rw [hc2] at hv2
        rw [hc1, hc2] at hcs
        rw [← Option.some.inj hcs]
        show decOkB (qsub a b) = true
        exact decOkB_qsub hv1 hv2
  have hbody : splitOnChar '\n'
      (recs.flatMap (fun r => rowChars r ++ ['\n'])) =
      recs.map rowChars ++ [[]] :=
    splitOnChar_body recs (fun r hr => rowChars_no_newline
      (hsafe r hr).1 (hsafe r hr).2.1 (hsafe r hr).2.2
      (hdiffsafe r hr) (hstatus r hr))
  have hlines : (splitOnChar '\n' (toCsvChars recs)).filter
      (fun l => !l.isEmpty) = csvHeader :: recs.map rowChars := by
    rw [toCsvChars, splitOnChar_append _ (by decide), hbody,
      List.filter_cons, if_pos (by decide), List.filter_append,
      show (List.filter (fun l : List Char => !l.isEmpty) [[]]) = []
        from rfl,
      List.append_nil,
      List.filter_eq_self.mpr (fun l hl => by
        obtain ⟨r, hr, rfl⟩ := List.mem_map.mp hl
        cases hc : rowChars r with
        | nil => exact absurd hc (rowChars_ne_nil r)
        | cons y ys => rfl)]
  rw [parseCsv, hlines]
  show ((recs.map rowChars).mapM (fun line =>
      match splitOnChar ',' line with
      | [a, b, c, d, e] => some [parseField a, parseField b, parseField c,
          parseField d, parseField e]
      | _ => none)).map
      (fun rows => ((splitOnChar ',' csvHeader).map (fun l => String.mk l),
        rows)) = _
  rw [mapM_map_some _ rowChars _ recs (fun r hr => parse_rowChars
    (hsafe r hr).1 (hsafe r hr).2.1 (hsafe r hr).2.2
    (hdiffsafe r hr) (hstatus r hr))]
  show some ((splitOnChar ',' csvHeader).map (fun l => String.mk l), _) = _
  rw [show (splitOnChar ',' csvHeader).map (fun l => String.mk l) =
    ["InvoiceID", "Value1", "Value2", "Difference", "Status"] from by decide]

/-- C9 counterexample: a genuine reconciliation record with the
numeric-looking text InvoiceID "7" exports to the field `7`, which
numeric coercion re-parses as the number 7 — the round trip does not
reproduce the original InvoiceID tuple. -/
theorem C9_counterexample :
    reconcile ⟨["ID", "Amt"], [[.text "7", .num 10]]⟩ "ID" "Amt"
      ⟨["ID", "Amt"], [[.text "7", .num 10]]⟩ "ID" "Amt" =
      .ok [⟨.text "7", .num 10, .num 10, some 0, "Match"⟩] ∧
    parseCsv (toCsvChars [⟨.text "7", .num 10, .num 10, some 0, "Match"⟩]) =
      some (["InvoiceID", "Value1", "Value2", "Difference", "Status"],
        [[.num 7, .num 10, .num 10, .num 0, .text "Match"]]) ∧
    Cell.num 7 ≠ Cell.text "7" := by
  refine ⟨by decide, by decide, by decide⟩

/-- Witness for the amended C9 at a safe concrete run. -/
theorem C9_export_roundtrip_witness :
    parseCsv (toCsvChars [⟨.text "K1", .num 10, .num 10, some 0, "Match"⟩]) =
      some (["InvoiceID", "Value1", "Value2", "Difference", "Status"],
        ([⟨.text "K1", .num 10, .num 10, some 0, "Match"⟩] : List Rec).map
          (fun r => [r.invoiceID, r.value1, r.value2,
            diffCell r.difference, .text r.status])) ∧
    ∀ r ∈ ([⟨.text "K1", .num 10, .num 10, some 0, "Match"⟩] : List Rec),
      cellSub r.value1 r.value2 = some r.difference :=
  @C9_export_roundtrip
    ⟨["ID", "Amt"], [[.text "K1", .num 10]]⟩ "ID" "Amt"
    ⟨["ID", "Amt"], [[.text "K1", .num 10]]⟩ "ID" "Amt"
    [⟨.text "K1", .num 10, .num 10, some 0, "Match"⟩]
    (by decide) (by decide)
